import Mathlib

/-!
# Verification of the date-aggregation and streak utilities

Shallow embedding of `src/lib/utils.ts` of the progress-tracker repository.

Dates are modelled at calendar-day precision: an ISO `YYYY-MM-DD` string is
represented by a `CalDate` record with the parsed year, month (1-based) and
day fields.  The environment timezone is assumed to be UTC, so the local
accessors (`getDate`, `getMonth`) and the UTC accessors (`getUTCDate`,
`getUTCMonth`) used by the source agree and both read the corresponding
field of the parsed day.  `new Date()` ("today") is passed explicitly as a
`CalDate` parameter to the functions that consult the clock.

The `date-fns` helpers used by the source (`getWeek` with
`weekStartsOn: 0`, `startOfYear`, `endOfYear`, `addDays`, `isSameDay`,
`getMonth`, `getQuarter`, `getYear`, `isToday`, `isThisWeek`,
`isThisMonth`, `isThisQuarter`, `isThisYear`) are embedded below on
`CalDate`, following the library's documented algorithms (for `getWeek`:
week starts on Sunday, `firstWeekContainsDate = 1`, computed from the start
of the week of the date and the start of the week year).

JavaScript objects keyed by integer-like numeric keys (the `weeksMap`,
`monthsMap`, ... accumulators) are modelled as lists of bucket records in
insertion order; `Object.values` returns the values in ascending numeric
key order, modelled by an insertion sort on the bucket key.
-/

/-- A calendar date at day precision: the parse of a `YYYY-MM-DD` string. -/
structure CalDate where
  year : Nat
  month : Nat
  day : Nat
deriving DecidableEq, Repr

/-- Gregorian leap-year test. -/
def isLeap (y : Nat) : Bool :=
  decide ((y % 4 = 0 ∧ ¬ y % 100 = 0) ∨ y % 400 = 0)

/-- Number of days of month `m` (1-based) in a year with leap flag `leap`. -/
def daysInMonth (leap : Bool) (m : Nat) : Nat :=
  if m = 2 then (if leap then 29 else 28)
  else if m = 4 ∨ m = 6 ∨ m = 9 ∨ m = 11 then 30
  else 31

/-- Days of the year strictly before month `m` (1-based). -/
def daysBeforeMonth (leap : Bool) (m : Nat) : Nat :=
  ((List.range (m - 1)).map (fun i => daysInMonth leap (i + 1))).sum

/-- A `CalDate` denotes an actual calendar day (and the year is positive,
so that the proleptic Gregorian day numbering below applies). -/
def ValidDate (d : CalDate) : Prop :=
  1 ≤ d.year ∧ 1 ≤ d.month ∧ d.month ≤ 12 ∧ 1 ≤ d.day ∧
    d.day ≤ daysInMonth (isLeap d.year) d.month

instance (d : CalDate) : Decidable (ValidDate d) := by
  unfold ValidDate; infer_instance

/-- 1-based ordinal of the day within its year. -/
def dayOfYear (d : CalDate) : Nat :=
  daysBeforeMonth (isLeap d.year) d.month + d.day

/-- Number of days in year `y`. -/
def daysInYear (y : Nat) : Nat := if isLeap y then 366 else 365

/-- Absolute (proleptic Gregorian) day number of January 1 of year `y`;
day 1 is January 1 of year 1, which is a Monday. -/
def jan1Abs (y : Nat) : Nat :=
  365 * (y - 1) + (y - 1) / 4 + (y - 1) / 400 + 1 - (y - 1) / 100

/-- Absolute day number of a date. -/
def absDay (d : CalDate) : Nat := jan1Abs d.year + dayOfYear d - 1

/-- Absolute day number of the Sunday starting the week of absolute day `a`
(`startOfWeek` with `weekStartsOn: 0`; Sunday is `absDay % 7 = 0`). -/
def sowAbs (a : Nat) : Nat := a - a % 7

/-- The week-numbering year of a date under `weekStartsOn: 0`,
`firstWeekContainsDate: 1` (date-fns `getWeekYear`): the last days of
December already belong to week 1 of the next year when they lie in the
week containing the next January 1. -/
def weekYear (d : CalDate) : Nat :=
  if sowAbs (jan1Abs (d.year + 1)) ≤ absDay d then d.year + 1
  else if sowAbs (jan1Abs d.year) ≤ absDay d then d.year
  else d.year - 1

/-- date-fns `getWeek(date, \x7b weekStartsOn: 0 \x7d)`: 1-based week number
within the week-numbering year. -/
def getWeek (d : CalDate) : Nat :=
  (sowAbs (absDay d) - sowAbs (jan1Abs (weekYear d))) / 7 + 1

/-- date-fns `getMonth`: 0-based month. -/
def getMonth (d : CalDate) : Nat := d.month - 1

/-- date-fns `getQuarter`: 1-based quarter. -/
def getQuarter (d : CalDate) : Nat := getMonth d / 3 + 1

/-- date-fns `getYear`. -/
def getYear (d : CalDate) : Nat := d.year

/-- The calendar day after `d`. -/
def nextDay (d : CalDate) : CalDate :=
  if d.day < daysInMonth (isLeap d.year) d.month then ⟨d.year, d.month, d.day + 1⟩
  else if d.month < 12 then ⟨d.year, d.month + 1, 1⟩
  else ⟨d.year + 1, 1, 1⟩

/-- date-fns `addDays` (non-negative counts, as used by the source). -/
def addDays : CalDate → Nat → CalDate
  | d, 0 => d
  | d, n + 1 => addDays (nextDay d) n

/-- date-fns `isSameDay`, at day precision. -/
def isSameDay (a b : CalDate) : Bool := a == b

/-- `Math.abs (a - b)` on two JavaScript numbers holding naturals. -/
def natAbsDiff (a b : Nat) : Nat := max a b - min a b

/-- JavaScript `<` on two `Date`s (timestamp comparison; at day precision,
lexicographic on year, month, day). -/
def dateLtB (a b : CalDate) : Bool :=
  decide (a.year < b.year ∨ (a.year = b.year ∧
    (a.month < b.month ∨ (a.month = b.month ∧ a.day < b.day))))

/-- JavaScript `<=` on two `Date`s at day precision. -/
def dateLeB (a b : CalDate) : Bool := !(dateLtB b a)

/-- `dates.reduce((a, b) => (a < b ? a : b))`: earliest date of a list
(the default is irrelevant: the source only calls this on non-empty
input). -/
def minDateOf (l : List CalDate) : CalDate :=
  match l with
  | [] => ⟨0, 0, 0⟩
  | x :: xs => xs.foldl (fun a b => if dateLtB a b then a else b) x

/-- `dates.reduce((a, b) => (a > b ? a : b))`: latest date of a list. -/
def maxDateOf (l : List CalDate) : CalDate :=
  match l with
  | [] => ⟨0, 0, 0⟩
  | x :: xs => xs.foldl (fun a b => if dateLtB b a then a else b) x

/-- date-fns `startOfYear`, at day precision. -/
def startOfYearDate (d : CalDate) : CalDate := ⟨d.year, 1, 1⟩

/-- date-fns `endOfYear`, at day precision. -/
def endOfYearDate (d : CalDate) : CalDate := ⟨d.year, 12, 31⟩

/-- All days of year `y` in calendar order. -/
def datesOfYear (y : Nat) : List CalDate :=
  (List.range 12).flatMap
    (fun m => (List.range (daysInMonth (isLeap y) (m + 1))).map
      (fun k => CalDate.mk y (m + 1) (k + 1)))

/-- The years `lo, lo+1, ..., hi`. -/
def yearsFromTo (lo hi : Nat) : List Nat :=
  (List.range (hi + 1 - lo)).map (lo + ·)

/-- All days of the years `lo..hi` in calendar order: the iteration
`for (let day = startOfYear(min); day <= endOfYear(max); day = addDays(day, 1))`. -/
def daysOfYears (lo hi : Nat) : List CalDate :=
  (yearsFromTo lo hi).flatMap datesOfYear

/-- All days from `a` to `b` inclusive in calendar order: the iteration
`for (let day = earliest; day <= latest; day = addDays(day, 1))` with raw
endpoints (used by `getYearlyData`). -/
def daysFromTo (a b : CalDate) : List CalDate :=
  (daysOfYears a.year b.year).filter (fun d => dateLeB a d && dateLeB d b)

/-- Modelled from the spec: the `Frequency` enum (its declaration lives in
`src/constants/frequency.constant.ts` / `src/interfaces/goal.interface.ts`,
which are not part of the reviewed sources).  The spec lists the members
DAILY, WEEKLY, BIWEEKLY, SEMIMONTHLY, MONTHLY, QUARTERLY, SEMSTERLY
(semesterly), YEARLY; `other` stands for any unexpected value outside the
closed set, which falls into the `default` arm of every `switch` in the
source. -/
inductive Frequency where
  | DAILY
  | WEEKLY
  | BIWEEKLY
  | SEMIMONTHLY
  | MONTHLY
  | QUARTERLY
  | SEMSTERLY
  | YEARLY
  | other (value : String)
deriving DecidableEq, Repr

/-- The `Streak` interface: `\x7b current: number, record: number \x7d`. -/
structure Streak where
  current : Nat
  record : Nat
deriving DecidableEq, Repr

/-- Bucket of `getDailyData`: `\x7b week, level, days \x7d`. -/
structure DailyBucket where
  week : Nat
  level : Nat
  days : List CalDate
deriving DecidableEq, Repr

/-- Bucket of `getWeeklyData`: `\x7b week, level \x7d`. -/
structure WeeklyBucket where
  week : Nat
  level : Nat
deriving DecidableEq, Repr

/-- Bucket of `getBiWeeklyData`: `\x7b biWeek, level, weeks \x7d`. -/
structure BiWeeklyBucket where
  biWeek : Nat
  level : Nat
  weeks : List Nat
deriving DecidableEq, Repr

/-- Bucket of `getMonthlyData`: `\x7b month, level \x7d`. -/
structure MonthlyBucket where
  month : Nat
  level : Nat
deriving DecidableEq, Repr

/-- Bucket of `getQuarterlyData`: `\x7b quarter, level \x7d`. -/
structure QuarterlyBucket where
  quarter : Nat
  level : Nat
deriving DecidableEq, Repr

/-- Bucket of `getSemesterlyData`: `\x7b semester, level \x7d`. -/
structure SemesterlyBucket where
  semester : Nat
  level : Nat
deriving DecidableEq, Repr

/-- Bucket of `getYearlyData`: `\x7b year, level \x7d`. -/
structure YearlyBucket where
  year : Nat
  level : Nat
deriving DecidableEq, Repr

/-- Update the first entry satisfying `p` (a JS object holds one entry per
key, so at most one entry ever matches a key predicate). -/
def updateFirst {B : Type} (p : B → Bool) (f : B → B) : List B → List B
  | [] => []
  | b :: bs => if p b then f b :: bs else b :: updateFirst p f bs

/-- `if (!map[k]) map[k] = mk k`: add a fresh bucket for key `k` unless one
is present. -/
def ensureKey {B : Type} (keyOf : B → Nat) (mk : Nat → B) (k : Nat) (m : List B) : List B :=
  if m.any (fun b => keyOf b == k) then m else m ++ [mk k]

/-- One iteration of the shared bucketing loop body: compute the day's
level (1 when some input date falls on this day, else 0), materialize the
bucket of the day's period key, and apply the per-granularity update
`bump day level` to it. -/
def bucketStep {B : Type} (keyOf : B → Nat) (mk : Nat → B)
    (bump : CalDate → Nat → B → B) (data : List CalDate)
    (periodOf : CalDate → Nat) (m : List B) (day : CalDate) : List B :=
  let level := if data.any (fun date => isSameDay date day) then 1 else 0
  let k := periodOf day
  updateFirst (fun b => keyOf b == k) (bump day level) (ensureKey keyOf mk k m)

/-- The shared bucketing loop over the window days. -/
def bucketLoop {B : Type} (keyOf : B → Nat) (mk : Nat → B)
    (bump : CalDate → Nat → B → B) (data : List CalDate)
    (periodOf : CalDate → Nat) (days : List CalDate) : List B :=
  days.foldl (bucketStep keyOf mk bump data periodOf) []

/-- The post-pass `for (k = lo; k <= hi; k++) if (!map[k]) map[k] = mk k`. -/
def fillKeys {B : Type} (keyOf : B → Nat) (mk : Nat → B)
    (m : List B) (ks : List Nat) : List B :=
  ks.foldl (fun m k => ensureKey keyOf mk k m) m

/-- `Object.values` of a JS object whose keys are integer-like: the values
in ascending numeric key order. -/
def objValues {B : Type} (keyOf : B → Nat) (m : List B) : List B :=
  List.insertionSort (fun a b => keyOf a ≤ keyOf b) m

/-- `getDailyData`: per-week buckets with level = number of days of the
week (of the full-year window) on which some completion falls, and the
list of those days. -/
def getDailyData (data : List CalDate) : List DailyBucket :=
  if data.isEmpty then []
  else
    let parsedDates := data
    let earliest := startOfYearDate (minDateOf parsedDates)
    let latest := endOfYearDate (maxDateOf parsedDates)
    let days := daysOfYears earliest.year latest.year
    let m := bucketLoop DailyBucket.week (fun k => ⟨k, 0, []⟩)
      (fun day level b =>
        ⟨b.week, b.level + level, if level == 1 then b.days ++ [day] else b.days⟩)
      data getWeek days
    let totalWeeks := getWeek latest
    let m2 := fillKeys DailyBucket.week (fun k => ⟨k, 0, []⟩) m
      ((List.range totalWeeks).map (· + 1))
    objValues DailyBucket.week m2

/-- `getWeeklyData`: per-week buckets with level = number of completed
days of the week. -/
def getWeeklyData (data : List CalDate) : List WeeklyBucket :=
  if data.isEmpty then []
  else
    let parsedDates := data
    let earliest := startOfYearDate (minDateOf parsedDates)
    let latest := endOfYearDate (maxDateOf parsedDates)
    let days := daysOfYears earliest.year latest.year
    let m := bucketLoop WeeklyBucket.week (fun k => ⟨k, 0⟩)
      (fun _ level b => ⟨b.week, b.level + level⟩)
      data getWeek days
    let totalWeeks := getWeek latest
    let m2 := fillKeys WeeklyBucket.week (fun k => ⟨k, 0⟩) m
      ((List.range totalWeeks).map (· + 1))
    objValues WeeklyBucket.week m2

/-- `getBiWeeklyData`: per-bi-week buckets (`biWeek = ceil(week / 2)`). -/
def getBiWeeklyData (data : List CalDate) : List BiWeeklyBucket :=
  if data.isEmpty then []
  else
    let parsedDates := data
    let earliest := startOfYearDate (minDateOf parsedDates)
    let latest := endOfYearDate (maxDateOf parsedDates)
    let days := daysOfYears earliest.year latest.year
    let m := bucketLoop BiWeeklyBucket.biWeek (fun k => ⟨k, 0, []⟩)
      (fun day level b =>
        ⟨b.biWeek, b.level + level,
          if level == 1 && !(b.weeks.contains (getWeek day)) then
            b.weeks ++ [getWeek day]
          else b.weeks⟩)
      data (fun day => (getWeek day + 1) / 2) days
    let totalBiWeeks := (getWeek latest + 1) / 2
    let m2 := fillKeys BiWeeklyBucket.biWeek (fun k => ⟨k, 0, []⟩) m
      ((List.range totalBiWeeks).map (· + 1))
    objValues BiWeeklyBucket.biWeek m2

/-- `getMonthlyData`: per-month buckets (`month = getMonth(day) + 1`). -/
def getMonthlyData (data : List CalDate) : List MonthlyBucket :=
  if data.isEmpty then []
  else
    let parsedDates := data
    let earliest := startOfYearDate (minDateOf parsedDates)
    let latest := endOfYearDate (maxDateOf parsedDates)
    let days := daysOfYears earliest.year latest.year
    let m := bucketLoop MonthlyBucket.month (fun k => ⟨k, 0⟩)
      (fun _ level b => ⟨b.month, b.level + level⟩)
      data (fun day => getMonth day + 1) days
    let m2 := fillKeys MonthlyBucket.month (fun k => ⟨k, 0⟩) m
      ((List.range 12).map (· + 1))
    objValues MonthlyBucket.month m2

/-- `getQuarterlyData`: per-quarter buckets. -/
def getQuarterlyData (data : List CalDate) : List QuarterlyBucket :=
  if data.isEmpty then []
  else
    let parsedDates := data
    let earliest := startOfYearDate (minDateOf parsedDates)
    let latest := endOfYearDate (maxDateOf parsedDates)
    let days := daysOfYears earliest.year latest.year
    let m := bucketLoop QuarterlyBucket.quarter (fun k => ⟨k, 0⟩)
      (fun _ level b => ⟨b.quarter, b.level + level⟩)
      data getQuarter days
    let m2 := fillKeys QuarterlyBucket.quarter (fun k => ⟨k, 0⟩) m
      ((List.range 4).map (· + 1))
    objValues QuarterlyBucket.quarter m2

/-- `getSemesterlyData`: per-semester buckets (Jan-Jun = 1, Jul-Dec = 2). -/
def getSemesterlyData (data : List CalDate) : List SemesterlyBucket :=
  if data.isEmpty then []
  else
    let parsedDates := data
    let earliest := startOfYearDate (minDateOf parsedDates)
    let latest := endOfYearDate (maxDateOf parsedDates)
    let days := daysOfYears earliest.year latest.year
    let m := bucketLoop SemesterlyBucket.semester (fun k => ⟨k, 0⟩)
      (fun _ level b => ⟨b.semester, b.level + level⟩)
      data (fun day => if getMonth day < 6 then 1 else 2) days
    let m2 := fillKeys SemesterlyBucket.semester (fun k => ⟨k, 0⟩) m
      ((List.range 2).map (· + 1))
    objValues SemesterlyBucket.semester m2

/-- `getYearlyData`: per-year buckets over the raw `min..max` day range
(no expansion to year boundaries and no fill pass). -/
def getYearlyData (data : List CalDate) : List YearlyBucket :=
  if data.isEmpty then []
  else
    let parsedDates := data
    let earliest := minDateOf parsedDates
    let latest := maxDateOf parsedDates
    let days := daysFromTo earliest latest
    let m := bucketLoop YearlyBucket.year (fun k => ⟨k, 0⟩)
      (fun _ level b => ⟨b.year, b.level + level⟩)
      data getYear days
    objValues YearlyBucket.year m

/-- date-fns `isToday`, with `today` explicit. -/
def isToday (d today : CalDate) : Bool := isSameDay d today

/-- date-fns `isThisWeek(d, \x7b weekStartsOn: 0 \x7d)`: same start of week. -/
def isThisWeek (d today : CalDate) : Bool :=
  sowAbs (absDay d) == sowAbs (absDay today)

/-- date-fns `isThisMonth`: same month of the same year. -/
def isThisMonth (d today : CalDate) : Bool :=
  d.month == today.month && d.year == today.year

/-- date-fns `isThisQuarter`: same quarter of the same year. -/
def isThisQuarter (d today : CalDate) : Bool :=
  getQuarter d == getQuarter today && d.year == today.year

/-- date-fns `isThisYear`. -/
def isThisYear (d today : CalDate) : Bool := d.year == today.year

/-- `handleDisable(frequency, completions)`, with `today = new Date()`
made explicit. -/
def handleDisable (frequency : Frequency) (completions : List CalDate)
    (today : CalDate) : Bool :=
  match frequency with
  | .DAILY => completions.any (fun completion => isToday completion today)
  | .WEEKLY => completions.any (fun completion => isThisWeek completion today)
  | .BIWEEKLY =>
    let currentWeek := getWeek today
    completions.any (fun completion =>
      let completionWeek := getWeek completion
      if completionWeek == currentWeek then true
      else if completionWeek == currentWeek - 1 then
        (currentWeek + 1) / 2 == (completionWeek + 1) / 2
      else false)
  | .SEMIMONTHLY =>
    let dayOfMonth := today.day
    completions.any (fun completion =>
      let completionDayOfMonth := completion.day
      (decide (dayOfMonth ≤ 15) && decide (completionDayOfMonth ≤ 15)) ||
      (decide (dayOfMonth > 15) && decide (completionDayOfMonth > 15)))
  | .MONTHLY => completions.any (fun completion => isThisMonth completion today)
  | .QUARTERLY => completions.any (fun completion => isThisQuarter completion today)
  | .SEMSTERLY =>
    let month := getMonth today
    completions.any (fun completion =>
      (decide (month < 6) && decide (getMonth completion < 6)) ||
      (decide (month ≥ 6) && decide (getMonth completion ≥ 6)))
  | .YEARLY => completions.any (fun completion => isThisYear completion today)
  | .other _ => false

/-- `isConsecutive(prevDate, currDate, frequency)`. -/
def isConsecutive (prevDate currDate : CalDate) (frequency : Frequency) : Bool :=
  match frequency with
  | .DAILY => isSameDay (addDays prevDate 1) currDate
  | .WEEKLY => getWeek prevDate + 1 == getWeek currDate
  | .BIWEEKLY => (getWeek prevDate + 1) / 2 + 1 == (getWeek currDate + 1) / 2
  | .SEMIMONTHLY =>
    let prevMonth := getMonth prevDate
    let currMonth := getMonth currDate
    (prevMonth == currMonth && decide (natAbsDiff prevDate.day currDate.day ≤ 15)) ||
    (prevMonth != currMonth && decide (prevDate.day > 15) && decide (currDate.day ≤ 15))
  | .MONTHLY => getMonth prevDate + 1 == getMonth currDate
  | .QUARTERLY => getQuarter prevDate + 1 == getQuarter currDate
  | .SEMSTERLY =>
    let prevSemester := if getMonth prevDate < 6 then 1 else 2
    let currSemester := if getMonth currDate < 6 then 1 else 2
    prevSemester == currSemester &&
      decide (natAbsDiff (getMonth prevDate) (getMonth currDate) ≤ 6)
  | .YEARLY => getYear prevDate + 1 == getYear currDate
  | .other _ => false

/-- `isValidStreak(lastDate, today, frequency)`. -/
def isValidStreak (lastDate today : CalDate) (frequency : Frequency) : Bool :=
  match frequency with
  | .DAILY => isSameDay lastDate today || isSameDay (addDays lastDate 1) today
  | .WEEKLY =>
    getWeek lastDate == getWeek today || getWeek lastDate + 1 == getWeek today
  | .BIWEEKLY =>
    (getWeek lastDate + 1) / 2 == (getWeek today + 1) / 2 ||
    (getWeek lastDate + 1) / 2 + 1 == (getWeek today + 1) / 2
  | .SEMIMONTHLY =>
    let lastMonth := getMonth lastDate
    let thisMonth := getMonth today
    (lastMonth == thisMonth && decide (natAbsDiff lastDate.day today.day ≤ 15)) ||
    (lastMonth != thisMonth && decide (lastDate.day > 15) && decide (today.day ≤ 15))
  | .MONTHLY =>
    getMonth lastDate == getMonth today || getMonth lastDate + 1 == getMonth today
  | .QUARTERLY =>
    getQuarter lastDate == getQuarter today ||
    getQuarter lastDate + 1 == getQuarter today
  | .SEMSTERLY =>
    let lastSemester := if getMonth lastDate < 6 then 1 else 2
    let thisSemester := if getMonth today < 6 then 1 else 2
    lastSemester == thisSemester &&
      decide (natAbsDiff (getMonth lastDate) (getMonth today) ≤ 6)
  | .YEARLY =>
    getYear lastDate == getYear today || getYear lastDate + 1 == getYear today
  | .other _ => false

/-- `dates.map(parseISO).sort((a, b) => a.getTime() - b.getTime())`. -/
def sortedDates (dates : List CalDate) : List CalDate :=
  List.insertionSort (fun a b => absDay a ≤ absDay b) dates

/-- One iteration of the streak walk: `streak`/`longestStreak` update for
the pair `(parsedDates[i-1], parsedDates[i])`. -/
def streakStep (frequency : Frequency) (s : Nat × Nat)
    (pc : CalDate × CalDate) : Nat × Nat :=
  if isConsecutive pc.1 pc.2 frequency then (s.1 + 1, max s.2 (s.1 + 1))
  else (1, s.2)

/-- `calculateStreaks(dates, frequency)`, with `today = new Date()` made
explicit. -/
def calculateStreaks (dates : List CalDate) (frequency : Frequency)
    (today : CalDate) : Streak :=
  if dates.isEmpty then ⟨0, 0⟩
  else
    let parsedDates := sortedDates dates
    if parsedDates.length > 0 then
      let walked := (parsedDates.zip parsedDates.tail).foldl (streakStep frequency) (1, 1)
      let currentStreak :=
        if isValidStreak (parsedDates.getLastD ⟨0, 0, 0⟩) today frequency then
          walked.1
        else 0
      ⟨currentStreak, walked.2⟩
    else ⟨0, 0⟩

/-- The week number of the `n`-th day (1-based) of a year whose January 1
has absolute day number `j (mod 7)` and leap flag `leap`: `getWeek`
expressed against the year's shape.  The first branch is the fold of the
last days of December into week 1 of the next week-numbering year. -/
def weekFromShape (j : Nat) (leap : Bool) (n : Nat) : Nat :=
  if 365 + (if leap then 1 else 0) + 1 ≤ n + (j + 365 + (if leap then 1 else 0)) % 7 then 1
  else (n - 1 + j) / 7 + 1

/-- Maximum of a list of naturals (0 when empty). -/
def listMax (l : List Nat) : Nat := l.foldr max 0

/-! ## Small facts about the streak calculator -/

theorem sortedDates_length (l : List CalDate) : (sortedDates l).length = l.length :=
  (List.perm_insertionSort _ l).length_eq

theorem streakStep_foldl_inv (f : Frequency) :
    ∀ (ps : List (CalDate × CalDate)) (s L : Nat), 1 ≤ s → s ≤ L →
      1 ≤ (ps.foldl (streakStep f) (s, L)).1 ∧
      (ps.foldl (streakStep f) (s, L)).1 ≤ (ps.foldl (streakStep f) (s, L)).2 ∧
      L ≤ (ps.foldl (streakStep f) (s, L)).2 := by
  intro ps
  induction ps with
  | nil => intro s L h1 h2; exact ⟨h1, h2, le_refl L⟩
  | cons p ps ih =>
    intro s L h1 h2
    simp only [List.foldl_cons]
    unfold streakStep
    split
    · have h := ih (s + 1) (max L (s + 1)) (by omega) (le_max_right _ _)
      exact ⟨h.1, h.2.1, le_trans (le_max_left _ _) h.2.2⟩
    · exact ih 1 L (le_refl 1) (le_trans h1 h2)

theorem calculateStreaks_eq (dates : List CalDate) (f : Frequency) (t : CalDate)
    (h : dates ≠ []) :
    calculateStreaks dates f t =
      let parsedDates := sortedDates dates
      let walked := (parsedDates.zip parsedDates.tail).foldl (streakStep f) (1, 1)
      ⟨if isValidStreak (parsedDates.getLastD ⟨0, 0, 0⟩) t f then walked.1 else 0,
        walked.2⟩ := by
  unfold calculateStreaks
  have hne : dates.isEmpty = false := by
    cases dates with
    | nil => exact absurd rfl h
    | cons a l => rfl
  rw [hne]
  have hlen : (sortedDates dates).length > 0 := by
    rw [sortedDates_length]
    cases dates with
    | nil => exact absurd rfl h
    | cons a l => simp
  simp only [Bool.false_eq_true, if_false, if_pos hlen]

/-- **C10.** For every non-empty list of dates, every frequency (including
an unrecognized one) and every value of "today", the `Streak` returned by
`calculateStreaks` satisfies `1 ≤ record` and `current ≤ record`. -/
theorem c10_streak_bounds (dates : List CalDate) (f : Frequency) (today : CalDate)
    (h : dates ≠ []) :
    1 ≤ (calculateStreaks dates f today).record ∧
      (calculateStreaks dates f today).current ≤ (calculateStreaks dates f today).record := by
  rw [calculateStreaks_eq dates f today h]
  have hinv := streakStep_foldl_inv f
    ((sortedDates dates).zip (sortedDates dates).tail) 1 1 (le_refl 1) (le_refl 1)
  simp only []
  constructor
  · exact le_trans (le_refl 1) hinv.2.2
  · split
    · exact hinv.2.1
    · exact Nat.zero_le _

/-- Witness for C10 at a concrete input. -/
theorem c10_streak_bounds_witness :
    ([CalDate.mk 2024 1 1] ≠ []) ∧
      (1 ≤ (calculateStreaks [⟨2024, 1, 1⟩] Frequency.DAILY ⟨2024, 1, 1⟩).record ∧
        (calculateStreaks [⟨2024, 1, 1⟩] Frequency.DAILY ⟨2024, 1, 1⟩).current ≤
          (calculateStreaks [⟨2024, 1, 1⟩] Frequency.DAILY ⟨2024, 1, 1⟩).record) :=
  ⟨by decide, c10_streak_bounds [⟨2024, 1, 1⟩] Frequency.DAILY ⟨2024, 1, 1⟩ (by decide)⟩

/-- **C7.** On empty input, every aggregation function returns the empty
sequence, and `calculateStreaks [] f` returns `\x7b current := 0, record := 0 \x7d`
for every frequency `f` (and every value of "today"). -/
theorem c7_empty_inputs :
    getDailyData [] = [] ∧ getWeeklyData [] = [] ∧ getBiWeeklyData [] = [] ∧
    getMonthlyData [] = [] ∧ getQuarterlyData [] = [] ∧ getSemesterlyData [] = [] ∧
    getYearlyData [] = [] ∧
    ∀ (f : Frequency) (today : CalDate), calculateStreaks [] f today = ⟨0, 0⟩ :=
  ⟨rfl, rfl, rfl, rfl, rfl, rfl, rfl, fun _ _ => rfl⟩

/-- **C8.** An unknown/unrecognized frequency value (any string outside the
enum's closed set) makes `handleDisable`, `isConsecutive` and
`isValidStreak` return a definite `false` on every input: each `switch`
falls through to its `default: return false` arm. -/
theorem c8_unknown_frequency (value : String) (completions : List CalDate)
    (today prevDate currDate lastDate : CalDate) :
    handleDisable (Frequency.other value) completions today = false ∧
    isConsecutive prevDate currDate (Frequency.other value) = false ∧
    isValidStreak lastDate today (Frequency.other value) = false :=
  ⟨rfl, rfl, rfl⟩

/-- **C9.** Under DAILY, dates 2024-01-01/02/03 give record 3; with today
= 2024-01-03 the current streak is 3, with today = 2024-01-10 it is 0;
DAILY adjacency holds iff the later date is exactly the day after the
earlier one, and the current streak is valid iff the last date is today or
yesterday. -/
theorem c9_daily_example :
    calculateStreaks [⟨2024, 1, 1⟩, ⟨2024, 1, 2⟩, ⟨2024, 1, 3⟩]
        Frequency.DAILY ⟨2024, 1, 3⟩ = ⟨3, 3⟩ ∧
    calculateStreaks [⟨2024, 1, 1⟩, ⟨2024, 1, 2⟩, ⟨2024, 1, 3⟩]
        Frequency.DAILY ⟨2024, 1, 10⟩ = ⟨0, 3⟩ ∧
    (∀ prevDate currDate : CalDate,
      isConsecutive prevDate currDate Frequency.DAILY = true ↔
        currDate = nextDay prevDate) ∧
    (∀ lastDate today : CalDate,
      isValidStreak lastDate today Frequency.DAILY = true ↔
        (lastDate = today ∨ today = nextDay lastDate)) := by
  refine ⟨by decide, by decide, ?_, ?_⟩
  · intro p c
    show (nextDay p == c) = true ↔ c = nextDay p
    rw [beq_iff_eq]
    exact eq_comm
  · intro l t
    show (l == t || nextDay l == t) = true ↔ (l = t ∨ t = nextDay l)
    rw [Bool.or_eq_true, beq_iff_eq, beq_iff_eq]
    exact or_congr Iff.rfl eq_comm

/-- **C4.** Under MONTHLY the adjacency check compares raw 0-based month
numbers with no year-rollover guard: 2023-12-15 and 2024-01-15 are not
consecutive (`11 + 1 ≠ 0`), and the record streak for that pair stays 1,
whatever "today" is. -/
theorem c4_monthly_wraparound :
    isConsecutive ⟨2023, 12, 15⟩ ⟨2024, 1, 15⟩ Frequency.MONTHLY = false ∧
    ∀ today : CalDate,
      (calculateStreaks [⟨2023, 12, 15⟩, ⟨2024, 1, 15⟩]
          Frequency.MONTHLY today).record = 1 :=
  ⟨by decide, fun _ => rfl⟩

/-- **C3**: evaluation at the failing input.  With today = 2025-03-10,
`handleDisable(SEMIMONTHLY, ["2020-07-03"])` returns `true` although the
completion is in a different month (and year) entirely: the branch only
compares which side of the 15th the day-of-month falls on. -/
theorem c3_semimonthly_bug_eval :
    handleDisable Frequency.SEMIMONTHLY [⟨2020, 7, 3⟩] ⟨2025, 3, 10⟩ = true ∧
    isThisMonth ⟨2020, 7, 3⟩ ⟨2025, 3, 10⟩ = false := by decide

/-- **C2**: counterexample.  Under DAILY, inserting a duplicate of
2024-01-02 into the sorted list 2024-01-01/02/03 lowers the record streak
from 3 to 2: the equal pair is not "consecutive", so the running streak
resets at the duplicate. -/
theorem c2_duplicate_counterexample :
    (calculateStreaks [⟨2024, 1, 1⟩, ⟨2024, 1, 2⟩, ⟨2024, 1, 3⟩]
        Frequency.DAILY ⟨2024, 1, 3⟩).record = 3 ∧
    (calculateStreaks [⟨2024, 1, 1⟩, ⟨2024, 1, 2⟩, ⟨2024, 1, 2⟩, ⟨2024, 1, 3⟩]
        Frequency.DAILY ⟨2024, 1, 3⟩).record = 2 := by decide

/-- **C2** (amended).  Two consecutive equal dates count as "consecutive"
exactly under SEMIMONTHLY and SEMSTERLY (where the same-period branch
accepts a gap of 0); under every other frequency an equal pair is not
consecutive and resets the running streak to 1, so inserting a duplicate
of an existing date can change (lower) the record streak. -/
theorem c2_duplicate_consecutive (d : CalDate) (f : Frequency) :
    isConsecutive d d f =
      (f == Frequency.SEMIMONTHLY || f == Frequency.SEMSTERLY) := by
  cases f with
  | DAILY =>
    show (nextDay d == d) = false
    rw [beq_eq_false_iff_ne]
    unfold nextDay
    split
    · intro h; have h3 := congrArg CalDate.day h; simp at h3
    · split
      · intro h; have h3 := congrArg CalDate.month h; simp at h3
      · intro h; have h3 := congrArg CalDate.year h; simp at h3
  | WEEKLY =>
    show (getWeek d + 1 == getWeek d) = false
    rw [beq_eq_false_iff_ne]; omega
  | BIWEEKLY =>
    show ((getWeek d + 1) / 2 + 1 == (getWeek d + 1) / 2) = false
    rw [beq_eq_false_iff_ne]; omega
  | SEMIMONTHLY => simp [isConsecutive, natAbsDiff]
  | MONTHLY =>
    show (getMonth d + 1 == getMonth d) = false
    rw [beq_eq_false_iff_ne]; omega
  | QUARTERLY =>
    show (getQuarter d + 1 == getQuarter d) = false
    rw [beq_eq_false_iff_ne]; omega
  | SEMSTERLY => simp [isConsecutive, natAbsDiff]
  | YEARLY =>
    show (getYear d + 1 == getYear d) = false
    rw [beq_eq_false_iff_ne]; omega
  | other value => simp [isConsecutive]

/-! ## Order facts about date comparison and min/max reduction -/

theorem dateLeB_refl (a : CalDate) : dateLeB a a = true := by
  simp [dateLeB, dateLtB]

theorem dateLeB_trans {a b c : CalDate} (h1 : dateLeB a b = true)
    (h2 : dateLeB b c = true) : dateLeB a c = true := by
  simp [dateLeB, dateLtB] at h1 h2 ⊢
  omega

theorem dateLeB_year {a b : CalDate} (h : dateLeB a b = true) : a.year ≤ b.year := by
  simp [dateLeB, dateLtB] at h
  omega

theorem minD_le_left (a b : CalDate) :
    dateLeB (if dateLtB a b then a else b) a = true := by
  split
  · exact dateLeB_refl a
  · next h => simp [dateLeB, dateLtB] at h ⊢; omega

theorem minD_le_right (a b : CalDate) :
    dateLeB (if dateLtB a b then a else b) b = true := by
  split
  · next h => simp [dateLeB, dateLtB] at h ⊢; omega
  · exact dateLeB_refl b

theorem maxD_ge_left (a b : CalDate) :
    dateLeB a (if dateLtB b a then a else b) = true := by
  split
  · exact dateLeB_refl a
  · next h => simp [dateLeB, dateLtB] at h ⊢; omega

theorem maxD_ge_right (a b : CalDate) :
    dateLeB b (if dateLtB b a then a else b) = true := by
  split
  · next h => simp [dateLeB, dateLtB] at h ⊢; omega
  · exact dateLeB_refl b

theorem foldl_minD_le (xs : List CalDate) :
    ∀ a : CalDate,
      dateLeB (xs.foldl (fun a b => if dateLtB a b then a else b) a) a = true ∧
      ∀ x ∈ xs, dateLeB (xs.foldl (fun a b => if dateLtB a b then a else b) a) x = true := by
  induction xs with
  | nil => intro a; exact ⟨dateLeB_refl a, by intro x hx; cases hx⟩
  | cons b bs ih =>
    intro a
    simp only [List.foldl_cons]
    obtain ⟨h1, h2⟩ := ih (if dateLtB a b then a else b)
    refine ⟨dateLeB_trans h1 (minD_le_left a b), ?_⟩
    intro x hx
    rcases List.mem_cons.1 hx with rfl | hx
    · exact dateLeB_trans h1 (minD_le_right a x)
    · exact h2 x hx

theorem foldl_maxD_ge (xs : List CalDate) :
    ∀ a : CalDate,
      dateLeB a (xs.foldl (fun a b => if dateLtB b a then a else b) a) = true ∧
      ∀ x ∈ xs, dateLeB x (xs.foldl (fun a b => if dateLtB b a then a else b) a) = true := by
  induction xs with
  | nil => intro a; exact ⟨dateLeB_refl a, by intro x hx; cases hx⟩
  | cons b bs ih =>
    intro a
    simp only [List.foldl_cons]
    obtain ⟨h1, h2⟩ := ih (if dateLtB b a then a else b)
    refine ⟨dateLeB_trans (maxD_ge_left a b) h1, ?_⟩
    intro x hx
    rcases List.mem_cons.1 hx with rfl | hx
    · exact dateLeB_trans (maxD_ge_right a x) h1
    · exact h2 x hx

theorem minDateOf_le {data : List CalDate} {x : CalDate} (hx : x ∈ data) :
    dateLeB (minDateOf data) x = true := by
  cases data with
  | nil => cases hx
  | cons a xs =>
    rcases List.mem_cons.1 hx with rfl | hx
    · exact (foldl_minD_le xs x).1
    · exact (foldl_minD_le xs a).2 x hx

theorem maxDateOf_ge {data : List CalDate} {x : CalDate} (hx : x ∈ data) :
    dateLeB x (maxDateOf data) = true := by
  cases data with
  | nil => cases hx
  | cons a xs =>
    rcases List.mem_cons.1 hx with rfl | hx
    · exact (foldl_maxD_ge xs x).1
    · exact (foldl_maxD_ge xs a).2 x hx

theorem foldl_minD_mem (xs : List CalDate) :
    ∀ a : CalDate, xs.foldl (fun a b => if dateLtB a b then a else b) a = a ∨
      xs.foldl (fun a b => if dateLtB a b then a else b) a ∈ xs := by
  induction xs with
  | nil => intro a; exact Or.inl rfl
  | cons b bs ih =>
    intro a
    simp only [List.foldl_cons]
    rcases ih (if dateLtB a b then a else b) with h | h
    · rw [h]
      split
      · exact Or.inl rfl
      · exact Or.inr (List.mem_cons_self b bs)
    · exact Or.inr (List.mem_cons_of_mem b h)

theorem foldl_maxD_mem (xs : List CalDate) :
    ∀ a : CalDate, xs.foldl (fun a b => if dateLtB b a then a else b) a = a ∨
      xs.foldl (fun a b => if dateLtB b a then a else b) a ∈ xs := by
  induction xs with
  | nil => intro a; exact Or.inl rfl
  | cons b bs ih =>
    intro a
    simp only [List.foldl_cons]
    rcases ih (if dateLtB b a then a else b) with h | h
    · rw [h]
      split
      · exact Or.inl rfl
      · exact Or.inr (List.mem_cons_self b bs)
    · exact Or.inr (List.mem_cons_of_mem b h)

theorem minDateOf_mem {data : List CalDate} (h : data ≠ []) :
    minDateOf data ∈ data := by
  cases data with
  | nil => exact absurd rfl h
  | cons a xs =>
    rcases foldl_minD_mem xs a with h' | h'
    · rw [minDateOf, h']; exact List.mem_cons_self a xs
    · exact List.mem_cons_of_mem a h'

theorem maxDateOf_mem {data : List CalDate} (h : data ≠ []) :
    maxDateOf data ∈ data := by
  cases data with
  | nil => exact absurd rfl h
  | cons a xs =>
    rcases foldl_maxD_mem xs a with h' | h'
    · rw [maxDateOf, h']; exact List.mem_cons_self a xs
    · exact List.mem_cons_of_mem a h'

/-! ## The calendar enumerations are duplicate-free and complete -/

theorem mem_datesOfYear_iff {d : CalDate} {y : Nat} :
    d ∈ datesOfYear y ↔
      d.year = y ∧ 1 ≤ d.month ∧ d.month ≤ 12 ∧ 1 ≤ d.day ∧
        d.day ≤ daysInMonth (isLeap y) d.month := by
  unfold datesOfYear
  simp only [List.mem_flatMap, List.mem_map, List.mem_range]
  constructor
  · rintro ⟨m, hm, k, hk, rfl⟩
    dsimp only
    exact ⟨rfl, by omega, by omega, by omega, by omega⟩
  · rintro ⟨rfl, h1, h2, h3, h4⟩
    have hm : d.month - 1 + 1 = d.month := by omega
    have hd : d.day - 1 + 1 = d.day := by omega
    refine ⟨d.month - 1, by omega, d.day - 1, ?_, ?_⟩
    · rw [hm]; omega
    · rw [hm, hd]

theorem mem_datesOfYear_self {d : CalDate} (hv : ValidDate d) :
    d ∈ datesOfYear d.year :=
  mem_datesOfYear_iff.2 ⟨rfl, hv.2.1, hv.2.2.1, hv.2.2.2.1, hv.2.2.2.2⟩

theorem nodup_datesOfYear (y : Nat) : (datesOfYear y).Nodup := by
  unfold datesOfYear
  rw [List.nodup_flatMap]
  constructor
  · intro m _
    refine List.Nodup.map ?_ (List.nodup_range _)
    intro k1 k2 hk
    have := congrArg CalDate.day hk
    simpa using this
  · refine (List.pairwise_lt_range 12).imp ?_
    intro m1 m2 hlt d hd1 hd2
    simp only [List.mem_map, List.mem_range] at hd1 hd2
    obtain ⟨k1, _, rfl⟩ := hd1
    obtain ⟨k2, _, h⟩ := hd2
    have := congrArg CalDate.month h
    simp at this
    omega

theorem year_of_mem_datesOfYear {d : CalDate} {y : Nat} (h : d ∈ datesOfYear y) :
    d.year = y :=
  (mem_datesOfYear_iff.1 h).1

theorem mem_yearsFromTo_iff {y lo hi : Nat} :
    y ∈ yearsFromTo lo hi ↔ lo ≤ y ∧ y ≤ hi := by
  unfold yearsFromTo
  simp only [List.mem_map, List.mem_range]
  constructor
  · rintro ⟨i, hi', rfl⟩; omega
  · intro ⟨h1, h2⟩; exact ⟨y - lo, by omega, by omega⟩

theorem nodup_daysOfYears (lo hi : Nat) : (daysOfYears lo hi).Nodup := by
  unfold daysOfYears
  rw [List.nodup_flatMap]
  constructor
  · intro y _
    exact nodup_datesOfYear y
  · have : (yearsFromTo lo hi).Pairwise (· < ·) := by
      unfold yearsFromTo
      refine (List.pairwise_lt_range _).map _ ?_
      intro a b hab
      omega
    refine this.imp ?_
    intro y1 y2 hlt d hd1 hd2
    have e1 := year_of_mem_datesOfYear hd1
    have e2 := year_of_mem_datesOfYear hd2
    omega

theorem mem_daysOfYears {x : CalDate} {lo hi : Nat} (hv : ValidDate x)
    (h1 : lo ≤ x.year) (h2 : x.year ≤ hi) : x ∈ daysOfYears lo hi := by
  unfold daysOfYears
  rw [List.mem_flatMap]
  exact ⟨x.year, mem_yearsFromTo_iff.2 ⟨h1, h2⟩, mem_datesOfYear_self hv⟩

/-! ## Sum of bucket levels through the bucketing pipeline -/

theorem updateFirst_map_sum {B : Type} (p : B → Bool) (f : B → B) (lvlOf : B → Nat)
    (l : Nat) (hf : ∀ b, lvlOf (f b) = lvlOf b + l) :
    ∀ m : List B, m.any p = true →
      ((updateFirst p f m).map lvlOf).sum = (m.map lvlOf).sum + l := by
  intro m
  induction m with
  | nil => intro h; cases h
  | cons b bs ih =>
    intro h
    unfold updateFirst
    cases hpb : p b
    · rw [if_neg (by simp [hpb])]
      have hbs : bs.any p = true := by
        rcases List.any_eq_true.1 h with ⟨x, hx, hpx⟩
        rcases List.mem_cons.1 hx with rfl | hx
        · rw [hpb] at hpx; cases hpx
        · exact List.any_eq_true.2 ⟨x, hx, hpx⟩
      simp only [List.map_cons, List.sum_cons, ih hbs]
      omega
    · rw [if_pos (by simp [hpb])]
      simp only [List.map_cons, List.sum_cons, hf]
      omega

theorem ensureKey_any {B : Type} (keyOf : B → Nat) (mk : Nat → B)
    (hmk : ∀ k, keyOf (mk k) = k) (k : Nat) (m : List B) :
    (ensureKey keyOf mk k m).any (fun b => keyOf b == k) = true := by
  unfold ensureKey
  split
  · assumption
  · simp [hmk]

theorem ensureKey_map_sum {B : Type} (keyOf : B → Nat) (mk : Nat → B)
    (lvlOf : B → Nat) (hmk : ∀ k, lvlOf (mk k) = 0) (k : Nat) (m : List B) :
    ((ensureKey keyOf mk k m).map lvlOf).sum = (m.map lvlOf).sum := by
  unfold ensureKey
  split
  · rfl
  · simp [hmk]

theorem bucketStep_map_sum {B : Type} (keyOf : B → Nat) (mk : Nat → B)
    (bump : CalDate → Nat → B → B) (lvlOf : B → Nat)
    (hkmk : ∀ k, keyOf (mk k) = k) (hlmk : ∀ k, lvlOf (mk k) = 0)
    (hlb : ∀ d l b, lvlOf (bump d l b) = lvlOf b + l)
    (data : List CalDate) (periodOf : CalDate → Nat) (m : List B) (day : CalDate) :
    ((bucketStep keyOf mk bump data periodOf m day).map lvlOf).sum =
      (m.map lvlOf).sum +
        (if data.any (fun date => isSameDay date day) then 1 else 0) := by
  unfold bucketStep
  rw [updateFirst_map_sum _ _ lvlOf _ (fun b => hlb day _ b) _
      (ensureKey_any keyOf mk hkmk _ m),
    ensureKey_map_sum keyOf mk lvlOf hlmk]

theorem bucketLoop_map_sum {B : Type} (keyOf : B → Nat) (mk : Nat → B)
    (bump : CalDate → Nat → B → B) (lvlOf : B → Nat)
    (hkmk : ∀ k, keyOf (mk k) = k) (hlmk : ∀ k, lvlOf (mk k) = 0)
    (hlb : ∀ d l b, lvlOf (bump d l b) = lvlOf b + l)
    (data : List CalDate) (periodOf : CalDate → Nat) :
    ∀ (days : List CalDate) (m : List B),
      ((days.foldl (bucketStep keyOf mk bump data periodOf) m).map lvlOf).sum =
        (m.map lvlOf).sum +
          days.countP (fun day => data.any (fun date => isSameDay date day)) := by
  intro days
  induction days with
  | nil => intro m; simp
  | cons day rest ih =>
    intro m
    simp only [List.foldl_cons, List.countP_cons]
    rw [ih, bucketStep_map_sum keyOf mk bump lvlOf hkmk hlmk hlb]
    omega

theorem fillKeys_map_sum {B : Type} (keyOf : B → Nat) (mk : Nat → B)
    (lvlOf : B → Nat) (hmk : ∀ k, lvlOf (mk k) = 0) :
    ∀ (ks : List Nat) (m : List B),
      ((fillKeys keyOf mk m ks).map lvlOf).sum = (m.map lvlOf).sum := by
  intro ks
  induction ks with
  | nil => intro m; rfl
  | cons k rest ih =>
    intro m
    unfold fillKeys
    simp only [List.foldl_cons]
    rw [show rest.foldl (fun m k => ensureKey keyOf mk k m) (ensureKey keyOf mk k m) =
        fillKeys keyOf mk (ensureKey keyOf mk k m) rest from rfl,
      ih, ensureKey_map_sum keyOf mk lvlOf hmk]

theorem objValues_map_sum {B : Type} (keyOf : B → Nat) (lvlOf : B → Nat)
    (m : List B) : ((objValues keyOf m).map lvlOf).sum = (m.map lvlOf).sum :=
  ((List.perm_insertionSort _ m).map lvlOf).sum_eq

theorem countP_isSameDay_eq_dedup_length (w data : List CalDate)
    (hw : w.Nodup) (hsub : ∀ x ∈ data, x ∈ w) :
    w.countP (fun day => data.any (fun date => isSameDay date day)) =
      data.dedup.length := by
  rw [List.countP_eq_length_filter]
  refine List.Perm.length_eq ?_
  rw [List.perm_ext_iff_of_nodup (hw.filter _) (List.nodup_dedup data)]
  intro a
  simp only [List.mem_filter, List.any_eq_true, isSameDay, beq_iff_eq,
    List.mem_dedup]
  constructor
  · rintro ⟨-, x, hx, rfl⟩
    exact hx
  · intro ha
    exact ⟨hsub a ha, a, ha, rfl⟩

theorem bucketPipeline_map_sum {B : Type} (keyOf : B → Nat) (mk : Nat → B)
    (bump : CalDate → Nat → B → B) (lvlOf : B → Nat)
    (hkmk : ∀ k, keyOf (mk k) = k) (hlmk : ∀ k, lvlOf (mk k) = 0)
    (hlb : ∀ d l b, lvlOf (bump d l b) = lvlOf b + l)
    (data : List CalDate) (periodOf : CalDate → Nat) (w : List CalDate)
    (ks : List Nat) (hw : w.Nodup) (hsub : ∀ x ∈ data, x ∈ w) :
    ((objValues keyOf (fillKeys keyOf mk
        (bucketLoop keyOf mk bump data periodOf w) ks)).map lvlOf).sum =
      data.dedup.length := by
  rw [objValues_map_sum, fillKeys_map_sum keyOf mk lvlOf hlmk]
  unfold bucketLoop
  rw [bucketLoop_map_sum keyOf mk bump lvlOf hkmk hlmk hlb data periodOf w []]
  simp only [List.map_nil, List.sum_nil, Nat.zero_add]
  exact countP_isSameDay_eq_dedup_length w data hw hsub

theorem window_subset {data : List CalDate}
    (hval : ∀ x ∈ data, ValidDate x) :
    ∀ x ∈ data, x ∈ daysOfYears (minDateOf data).year (maxDateOf data).year := by
  intro x hx
  exact mem_daysOfYears (hval x hx) (dateLeB_year (minDateOf_le hx))
    (dateLeB_year (maxDateOf_ge hx))

/-! ## The aggregation functions as instances of the generic pipeline -/

theorem getDailyData_eq (data : List CalDate) (h : data ≠ []) :
    getDailyData data =
      objValues DailyBucket.week
        (fillKeys DailyBucket.week (fun k => ⟨k, 0, []⟩)
          (bucketLoop DailyBucket.week (fun k => ⟨k, 0, []⟩)
            (fun day level b =>
              ⟨b.week, b.level + level,
                if level == 1 then b.days ++ [day] else b.days⟩)
            data getWeek
            (daysOfYears (minDateOf data).year (maxDateOf data).year))
          ((List.range (getWeek (endOfYearDate (maxDateOf data)))).map (· + 1))) := by
  unfold getDailyData
  rw [if_neg (by simp [h])]
  rfl

theorem getWeeklyData_eq (data : List CalDate) (h : data ≠ []) :
    getWeeklyData data =
      objValues WeeklyBucket.week
        (fillKeys WeeklyBucket.week (fun k => ⟨k, 0⟩)
          (bucketLoop WeeklyBucket.week (fun k => ⟨k, 0⟩)
            (fun _ level b => ⟨b.week, b.level + level⟩)
            data getWeek
            (daysOfYears (minDateOf data).year (maxDateOf data).year))
          ((List.range (getWeek (endOfYearDate (maxDateOf data)))).map (· + 1))) := by
  unfold getWeeklyData
  rw [if_neg (by simp [h])]
  rfl

theorem getBiWeeklyData_eq (data : List CalDate) (h : data ≠ []) :
    getBiWeeklyData data =
      objValues BiWeeklyBucket.biWeek
        (fillKeys BiWeeklyBucket.biWeek (fun k => ⟨k, 0, []⟩)
          (bucketLoop BiWeeklyBucket.biWeek (fun k => ⟨k, 0, []⟩)
            (fun day level b =>
              ⟨b.biWeek, b.level + level,
                if level == 1 && !(b.weeks.contains (getWeek day)) then
                  b.weeks ++ [getWeek day]
                else b.weeks⟩)
            data (fun day => (getWeek day + 1) / 2)
            (daysOfYears (minDateOf data).year (maxDateOf data).year))
          ((List.range ((getWeek (endOfYearDate (maxDateOf data)) + 1) / 2)).map (· + 1))) := by
  unfold getBiWeeklyData
  rw [if_neg (by simp [h])]
  rfl

theorem getMonthlyData_eq (data : List CalDate) (h : data ≠ []) :
    getMonthlyData data =
      objValues MonthlyBucket.month
        (fillKeys MonthlyBucket.month (fun k => ⟨k, 0⟩)
          (bucketLoop MonthlyBucket.month (fun k => ⟨k, 0⟩)
            (fun _ level b => ⟨b.month, b.level + level⟩)
            data (fun day => getMonth day + 1)
            (daysOfYears (minDateOf data).year (maxDateOf data).year))
          ((List.range 12).map (· + 1))) := by
  unfold getMonthlyData
  rw [if_neg (by simp [h])]
  rfl

theorem getQuarterlyData_eq (data : List CalDate) (h : data ≠ []) :
    getQuarterlyData data =
      objValues QuarterlyBucket.quarter
        (fillKeys QuarterlyBucket.quarter (fun k => ⟨k, 0⟩)
          (bucketLoop QuarterlyBucket.quarter (fun k => ⟨k, 0⟩)
            (fun _ level b => ⟨b.quarter, b.level + level⟩)
            data getQuarter
            (daysOfYears (minDateOf data).year (maxDateOf data).year))
          ((List.range 4).map (· + 1))) := by
  unfold getQuarterlyData
  rw [if_neg (by simp [h])]
  rfl

theorem getSemesterlyData_eq (data : List CalDate) (h : data ≠ []) :
    getSemesterlyData data =
      objValues SemesterlyBucket.semester
        (fillKeys SemesterlyBucket.semester (fun k => ⟨k, 0⟩)
          (bucketLoop SemesterlyBucket.semester (fun k => ⟨k, 0⟩)
            (fun _ level b => ⟨b.semester, b.level + level⟩)
            data (fun day => if getMonth day < 6 then 1 else 2)
            (daysOfYears (minDateOf data).year (maxDateOf data).year))
          ((List.range 2).map (· + 1))) := by
  unfold getSemesterlyData
  rw [if_neg (by simp [h])]
  rfl

theorem getYearlyData_eq (data : List CalDate) (h : data ≠ []) :
    getYearlyData data =
      objValues YearlyBucket.year
        (bucketLoop YearlyBucket.year (fun k => ⟨k, 0⟩)
          (fun _ level b => ⟨b.year, b.level + level⟩)
          data getYear
          (daysFromTo (minDateOf data) (maxDateOf data))) := by
  unfold getYearlyData
  rw [if_neg (by simp [h])]

/-- **C1.** For every non-empty list of well-formed day-precision dates,
the levels of the buckets returned by each non-yearly aggregation function
(`getDailyData`, `getWeeklyData`, `getBiWeeklyData`, `getMonthlyData`,
`getQuarterlyData`, `getSemesterlyData`) sum to the number of distinct
calendar days appearing in the input: every input day lies in the
start-of-year(min)..end-of-year(max) window, and a day with several
completion records contributes exactly 1. -/
theorem c1_bucket_levels_sum (data : List CalDate) (hne : data ≠ [])
    (hval : ∀ x ∈ data, ValidDate x) :
    ((getDailyData data).map DailyBucket.level).sum = data.dedup.length ∧
    ((getWeeklyData data).map WeeklyBucket.level).sum = data.dedup.length ∧
    ((getBiWeeklyData data).map BiWeeklyBucket.level).sum = data.dedup.length ∧
    ((getMonthlyData data).map MonthlyBucket.level).sum = data.dedup.length ∧
    ((getQuarterlyData data).map QuarterlyBucket.level).sum = data.dedup.length ∧
    ((getSemesterlyData data).map SemesterlyBucket.level).sum = data.dedup.length := by
  have hw := nodup_daysOfYears (minDateOf data).year (maxDateOf data).year
  have hsub := window_subset hval
  refine ⟨?_, ?_, ?_, ?_, ?_, ?_⟩
  · rw [getDailyData_eq data hne]
    exact bucketPipeline_map_sum _ _ _ DailyBucket.level
      (fun _ => rfl) (fun _ => rfl) (fun _ _ _ => rfl) data _ _ _ hw hsub
  · rw [getWeeklyData_eq data hne]
    exact bucketPipeline_map_sum _ _ _ WeeklyBucket.level
      (fun _ => rfl) (fun _ => rfl) (fun _ _ _ => rfl) data _ _ _ hw hsub
  · rw [getBiWeeklyData_eq data hne]
    exact bucketPipeline_map_sum _ _ _ BiWeeklyBucket.level
      (fun _ => rfl) (fun _ => rfl) (fun _ _ _ => rfl) data _ _ _ hw hsub
  · rw [getMonthlyData_eq data hne]
    exact bucketPipeline_map_sum _ _ _ MonthlyBucket.level
      (fun _ => rfl) (fun _ => rfl) (fun _ _ _ => rfl) data _ _ _ hw hsub
  · rw [getQuarterlyData_eq data hne]
    exact bucketPipeline_map_sum _ _ _ QuarterlyBucket.level
      (fun _ => rfl) (fun _ => rfl) (fun _ _ _ => rfl) data _ _ _ hw hsub
  · rw [getSemesterlyData_eq data hne]
    exact bucketPipeline_map_sum _ _ _ SemesterlyBucket.level
      (fun _ => rfl) (fun _ => rfl) (fun _ _ _ => rfl) data _ _ _ hw hsub

/-- Witness for C1 at a concrete input with a duplicated day. -/
theorem c1_bucket_levels_sum_witness :
    (([⟨2024, 1, 5⟩, ⟨2024, 1, 5⟩, ⟨2024, 3, 7⟩] : List CalDate) ≠ [] ∧
      ∀ x ∈ ([⟨2024, 1, 5⟩, ⟨2024, 1, 5⟩, ⟨2024, 3, 7⟩] : List CalDate), ValidDate x) ∧
    ((getMonthlyData [⟨2024, 1, 5⟩, ⟨2024, 1, 5⟩, ⟨2024, 3, 7⟩]).map
        MonthlyBucket.level).sum =
      ([⟨2024, 1, 5⟩, ⟨2024, 1, 5⟩, ⟨2024, 3, 7⟩] : List CalDate).dedup.length :=
  ⟨⟨by decide, by decide⟩,
    (c1_bucket_levels_sum [⟨2024, 1, 5⟩, ⟨2024, 1, 5⟩, ⟨2024, 3, 7⟩]
      (by decide) (by decide)).2.2.2.1⟩

/-! ## The week numbers of a year, characterized by its shape -/

theorem jan1Abs_pos (y : Nat) : 1 ≤ jan1Abs y := by
  unfold jan1Abs
  have h1 : (y - 1) / 100 ≤ 365 * (y - 1) + (y - 1) / 4 + (y - 1) / 400 :=
    le_trans (le_trans (Nat.div_le_self _ 100)
      (Nat.le_mul_of_pos_left _ (by norm_num)))
      (le_trans (Nat.le_add_right _ _) (Nat.le_add_right _ _))
  exact Nat.le_sub_of_add_le
    (by rw [Nat.add_comm 1 _]; exact Nat.add_le_add_right h1 1)

theorem jan1Abs_succ (y : Nat) (hy : 1 ≤ y) :
    jan1Abs (y + 1) = jan1Abs y + daysInYear y := by
  unfold jan1Abs daysInYear isLeap
  by_cases h1 : y % 4 = 0 <;> by_cases h2 : y % 100 = 0 <;> by_cases h3 : y % 400 = 0 <;>
    simp [h1, h2, h3] <;> omega

theorem daysBeforeMonth_add_le (leap : Bool) (m : Nat) (h1 : 1 ≤ m) (h2 : m ≤ 12) :
    daysBeforeMonth leap m + daysInMonth leap m ≤ 365 + (if leap then 1 else 0) := by
  have h : ∀ (L : Bool), ∀ m' ∈ List.range' 1 12,
      daysBeforeMonth L m' + daysInMonth L m' ≤ 365 + (if L then 1 else 0) := by decide
  exact h leap m (by rw [List.mem_range'_1]; omega)

theorem daysInYear_eq (y : Nat) :
    daysInYear y = 365 + (if isLeap y then 1 else 0) := by
  unfold daysInYear
  cases isLeap y <;> simp

theorem dayOfYear_bounds (d : CalDate) (hv : ValidDate d) :
    1 ≤ dayOfYear d ∧ dayOfYear d ≤ daysInYear d.year := by
  obtain ⟨hy, hm1, hm2, hd1, hd2⟩ := hv
  have hb := daysBeforeMonth_add_le (isLeap d.year) d.month hm1 hm2
  rw [daysInYear_eq]
  unfold dayOfYear
  omega

theorem getWeek_eq_shape (d : CalDate) (hv : ValidDate d) :
    getWeek d = weekFromShape (jan1Abs d.year % 7) (isLeap d.year) (dayOfYear d) := by
  have hy : 1 ≤ d.year := hv.1
  obtain ⟨hn1, hn2⟩ := dayOfYear_bounds d hv
  have hJ : 1 ≤ jan1Abs d.year := jan1Abs_pos d.year
  have hsucc : jan1Abs (d.year + 1) = jan1Abs d.year + daysInYear d.year :=
    jan1Abs_succ d.year hy
  have habs : absDay d = jan1Abs d.year + dayOfYear d - 1 := rfl
  rw [daysInYear_eq] at hsucc hn2
  unfold getWeek weekYear weekFromShape sowAbs
  rw [hsucc, habs]
  split_ifs at hn2 hsucc ⊢ <;> omega

theorem getWeek_pos (d : CalDate) : 1 ≤ getWeek d := by
  unfold getWeek
  omega

theorem weekFromShape_one (j : Nat) (leap : Bool) (hj : j < 7) :
    weekFromShape j leap 1 = 1 := by
  unfold weekFromShape
  split_ifs <;> omega

theorem weekFromShape_step (j : Nat) (leap : Bool) (hj : j < 7) (n : Nat)
    (h1 : 1 ≤ n) (h2 : n + 1 ≤ 365 + (if leap then 1 else 0)) :
    weekFromShape j leap (n + 1) = weekFromShape j leap n ∨
    weekFromShape j leap (n + 1) = weekFromShape j leap n + 1 ∨
    weekFromShape j leap (n + 1) = 1 := by
  unfold weekFromShape
  split_ifs at h2 ⊢ <;> omega

theorem weekFromShape_ivt (j : Nat) (leap : Bool) (hj : j < 7) :
    ∀ n k, 1 ≤ k → n + 1 ≤ 365 + (if leap then 1 else 0) →
      k ≤ weekFromShape j leap (n + 1) →
      ∃ m, 1 ≤ m ∧ m ≤ n + 1 ∧ weekFromShape j leap m = k := by
  intro n
  induction n with
  | zero =>
    intro k hk1 hb hk2
    rw [weekFromShape_one j leap hj] at hk2
    refine ⟨1, le_refl 1, le_refl 1, ?_⟩
    rw [weekFromShape_one j leap hj]
    omega
  | succ n ih =>
    intro k hk1 hb hk2
    have hb' : n + 1 ≤ 365 + (if leap then 1 else 0) :=
      le_trans (Nat.le_succ (n + 1)) hb
    rcases weekFromShape_step j leap hj (n + 1) (Nat.le_add_left 1 n) hb with h | h | h
    · have hk2' : k ≤ weekFromShape j leap (n + 1) := by rw [← h]; exact hk2
      obtain ⟨m, hm1, hm2, hm3⟩ := ih k hk1 hb' hk2'
      exact ⟨m, hm1, le_trans hm2 (Nat.le_succ _), hm3⟩
    · by_cases hc : k ≤ weekFromShape j leap (n + 1)
      · obtain ⟨m, hm1, hm2, hm3⟩ := ih k hk1 hb' hc
        exact ⟨m, hm1, le_trans hm2 (Nat.le_succ _), hm3⟩
      · refine ⟨n + 1 + 1, Nat.le_add_left 1 (n + 1), le_refl _, ?_⟩
        omega
    · refine ⟨n + 1 + 1, Nat.le_add_left 1 (n + 1), le_refl _, ?_⟩
      omega

set_option maxRecDepth 40000 in
theorem map_dayOfYear_datesOfYear (y : Nat) :
    (datesOfYear y).map dayOfYear = List.range' 1 (daysInYear y) := by
  have hpt : ∀ m k : Nat, dayOfYear (CalDate.mk y (m + 1) (k + 1)) =
      daysBeforeMonth (isLeap y) (m + 1) + (k + 1) := fun m k => rfl
  unfold datesOfYear daysInYear
  cases hL : isLeap y <;>
    simp only [List.map_flatMap, List.map_map, Function.comp_def, hpt, hL,
      Bool.false_eq_true, if_false, if_true] <;> decide

theorem valid_of_mem_datesOfYear {d : CalDate} {y : Nat} (hy : 1 ≤ y)
    (h : d ∈ datesOfYear y) : ValidDate d := by
  obtain ⟨hdy, h1, h2, h3, h4⟩ := mem_datesOfYear_iff.1 h
  exact ⟨by omega, h1, h2, h3, by rw [hdy]; exact h4⟩

theorem listMax_le_of_mem {l : List Nat} {x : Nat} (h : x ∈ l) : x ≤ listMax l := by
  induction l with
  | nil => cases h
  | cons a t ih =>
    rcases List.mem_cons.1 h with rfl | h
    · exact le_max_left _ _
    · exact le_trans (ih h) (le_max_right _ _)

theorem listMax_mem {l : List Nat} (h : l ≠ []) : listMax l ∈ l ∨ listMax l = 0 := by
  induction l with
  | nil => exact absurd rfl h
  | cons a t ih =>
    have hfold : listMax (a :: t) = max a (listMax t) := rfl
    rw [hfold]
    rcases Nat.le_total (listMax t) a with hle | hle
    · rw [max_eq_left hle]
      exact Or.inl (List.mem_cons_self a t)
    · rw [max_eq_right hle]
      cases t with
      | nil => exact Or.inr rfl
      | cons b t' =>
        rcases ih (by simp) with h' | h'
        · exact Or.inl (List.mem_cons_of_mem a h')
        · exact Or.inr h'

theorem mem_map_getWeek_datesOfYear_iff {y k : Nat} (hy : 1 ≤ y) :
    k ∈ (datesOfYear y).map getWeek ↔
      ∃ n, 1 ≤ n ∧ n ≤ daysInYear y ∧
        weekFromShape (jan1Abs y % 7) (isLeap y) n = k := by
  rw [List.mem_map]
  constructor
  · rintro ⟨d, hd, rfl⟩
    have hv := valid_of_mem_datesOfYear hy hd
    have hdy := year_of_mem_datesOfYear hd
    obtain ⟨hn1, hn2⟩ := dayOfYear_bounds d hv
    refine ⟨dayOfYear d, hn1, by rw [← hdy]; exact hn2, ?_⟩
    rw [← hdy, ← getWeek_eq_shape d hv]
  · rintro ⟨n, hn1, hn2, rfl⟩
    have hmem : n ∈ (datesOfYear y).map dayOfYear := by
      rw [map_dayOfYear_datesOfYear, List.mem_range'_1]
      omega
    obtain ⟨d, hd, hdn⟩ := List.mem_map.1 hmem
    have hv := valid_of_mem_datesOfYear hy hd
    have hdy := year_of_mem_datesOfYear hd
    refine ⟨d, hd, ?_⟩
    rw [getWeek_eq_shape d hv, hdy, hdn]

theorem yearWeeks_interval {y : Nat} (hy : 1 ≤ y) (k : Nat) :
    k ∈ (datesOfYear y).map getWeek ↔
      1 ≤ k ∧ k ≤ listMax ((datesOfYear y).map getWeek) := by
  constructor
  · intro h
    obtain ⟨d, _, rfl⟩ := List.mem_map.1 h
    exact ⟨getWeek_pos d, listMax_le_of_mem h⟩
  · rintro ⟨hk1, hk2⟩
    have hne : (datesOfYear y).map getWeek ≠ [] := by
      have hj1 : (⟨y, 1, 1⟩ : CalDate) ∈ datesOfYear y := by
        rw [mem_datesOfYear_iff]
        dsimp only
        exact ⟨rfl, by omega, by omega, by omega, by cases isLeap y <;> decide⟩
      intro hcon
      exact absurd (List.mem_map_of_mem getWeek hj1)
        (by rw [hcon]; exact List.not_mem_nil _)
    rcases listMax_mem hne with hmem | hzero
    · obtain ⟨n, hn1, hn2, hsh⟩ := (mem_map_getWeek_datesOfYear_iff hy).1 hmem
      have hDY : daysInYear y = 365 + (if isLeap y then 1 else 0) := daysInYear_eq y
      have hj : jan1Abs y % 7 < 7 := Nat.mod_lt _ (by omega)
      cases n with
      | zero => omega
      | succ n' =>
        obtain ⟨m, hm1, hm2, hm3⟩ := weekFromShape_ivt (jan1Abs y % 7) (isLeap y) hj n' k
          hk1 (by omega) (by omega)
        exact (mem_map_getWeek_datesOfYear_iff hy).2 ⟨m, hm1, by omega, hm3⟩
    · omega

/-! ## The keys of the bucket map through the pipeline -/

theorem updateFirst_map_key {B : Type} (p : B → Bool) (f : B → B) (keyOf : B → Nat)
    (hf : ∀ b, keyOf (f b) = keyOf b) :
    ∀ m : List B, (updateFirst p f m).map keyOf = m.map keyOf := by
  intro m
  induction m with
  | nil => rfl
  | cons b bs ih =>
    unfold updateFirst
    split
    · simp only [List.map_cons, hf]
    · simp only [List.map_cons, ih]

theorem ensureKey_map_key {B : Type} (keyOf : B → Nat) (mk : Nat → B)
    (hkmk : ∀ k, keyOf (mk k) = k) (k : Nat) (m : List B) :
    (ensureKey keyOf mk k m).map keyOf =
      if m.any (fun b => keyOf b == k) then m.map keyOf
      else m.map keyOf ++ [k] := by
  unfold ensureKey
  split
  · rfl
  · simp [hkmk]

theorem any_key_eq_true_iff {B : Type} (keyOf : B → Nat) (k : Nat) (m : List B) :
    m.any (fun b => keyOf b == k) = true ↔ k ∈ m.map keyOf := by
  rw [List.any_eq_true]
  constructor
  · rintro ⟨b, hb, hbk⟩
    rw [beq_iff_eq] at hbk
    rw [← hbk]
    exact List.mem_map_of_mem keyOf hb
  · intro h
    obtain ⟨b, hb, rfl⟩ := List.mem_map.1 h
    exact ⟨b, hb, beq_self_eq_true _⟩

theorem ensureKey_key_mem {B : Type} (keyOf : B → Nat) (mk : Nat → B)
    (hkmk : ∀ k, keyOf (mk k) = k) (k k' : Nat) (m : List B) :
    k' ∈ (ensureKey keyOf mk k m).map keyOf ↔ k' ∈ m.map keyOf ∨ k' = k := by
  rw [ensureKey_map_key keyOf mk hkmk]
  split
  · next hany =>
    rw [any_key_eq_true_iff] at hany
    constructor
    · exact Or.inl
    · rintro (h | rfl)
      · exact h
      · exact hany
  · rw [List.mem_append, List.mem_singleton]

theorem ensureKey_key_nodup {B : Type} (keyOf : B → Nat) (mk : Nat → B)
    (hkmk : ∀ k, keyOf (mk k) = k) (k : Nat) (m : List B)
    (hn : (m.map keyOf).Nodup) :
    ((ensureKey keyOf mk k m).map keyOf).Nodup := by
  rw [ensureKey_map_key keyOf mk hkmk]
  split
  · exact hn
  · next hany =>
    have hnotin : k ∉ m.map keyOf := fun hc =>
      hany ((any_key_eq_true_iff keyOf k m).2 hc)
    simp [List.nodup_append, hn, hnotin]

theorem bucketStep_map_key {B : Type} (keyOf : B → Nat) (mk : Nat → B)
    (bump : CalDate → Nat → B → B)
    (hkmk : ∀ k, keyOf (mk k) = k) (hkb : ∀ d l b, keyOf (bump d l b) = keyOf b)
    (data : List CalDate) (periodOf : CalDate → Nat) (m : List B) (day : CalDate) :
    (bucketStep keyOf mk bump data periodOf m day).map keyOf =
      (ensureKey keyOf mk (periodOf day) m).map keyOf := by
  unfold bucketStep
  exact updateFirst_map_key _ _ keyOf (fun b => hkb day _ b) _

theorem bucketLoop_key_mem {B : Type} (keyOf : B → Nat) (mk : Nat → B)
    (bump : CalDate → Nat → B → B)
    (hkmk : ∀ k, keyOf (mk k) = k) (hkb : ∀ d l b, keyOf (bump d l b) = keyOf b)
    (data : List CalDate) (periodOf : CalDate → Nat) :
    ∀ (days : List CalDate) (m : List B) (k : Nat),
      k ∈ ((days.foldl (bucketStep keyOf mk bump data periodOf) m).map keyOf) ↔
        k ∈ m.map keyOf ∨ k ∈ days.map periodOf := by
  intro days
  induction days with
  | nil => intro m k; simp
  | cons day rest ih =>
    intro m k
    simp only [List.foldl_cons]
    rw [ih]
    rw [show (bucketStep keyOf mk bump data periodOf m day).map keyOf =
        (ensureKey keyOf mk (periodOf day) m).map keyOf from
      bucketStep_map_key keyOf mk bump hkmk hkb data periodOf m day]
    rw [ensureKey_key_mem keyOf mk hkmk]
    simp only [List.map_cons, List.mem_cons]
    constructor
    · rintro ((h | rfl) | h)
      · exact Or.inl h
      · exact Or.inr (Or.inl rfl)
      · exact Or.inr (Or.inr h)
    · rintro (h | rfl | h)
      · exact Or.inl (Or.inl h)
      · exact Or.inl (Or.inr rfl)
      · exact Or.inr h

theorem bucketLoop_key_nodup {B : Type} (keyOf : B → Nat) (mk : Nat → B)
    (bump : CalDate → Nat → B → B)
    (hkmk : ∀ k, keyOf (mk k) = k) (hkb : ∀ d l b, keyOf (bump d l b) = keyOf b)
    (data : List CalDate) (periodOf : CalDate → Nat) :
    ∀ (days : List CalDate) (m : List B), (m.map keyOf).Nodup →
      ((days.foldl (bucketStep keyOf mk bump data periodOf) m).map keyOf).Nodup := by
  intro days
  induction days with
  | nil => intro m hm; exact hm
  | cons day rest ih =>
    intro m hm
    simp only [List.foldl_cons]
    refine ih _ ?_
    rw [bucketStep_map_key keyOf mk bump hkmk hkb]
    exact ensureKey_key_nodup keyOf mk hkmk _ m hm

theorem fillKeys_key_mem {B : Type} (keyOf : B → Nat) (mk : Nat → B)
    (hkmk : ∀ k, keyOf (mk k) = k) :
    ∀ (ks : List Nat) (m : List B) (k : Nat),
      k ∈ (fillKeys keyOf mk m ks).map keyOf ↔ k ∈ m.map keyOf ∨ k ∈ ks := by
  intro ks
  induction ks with
  | nil => intro m k; simp [fillKeys]
  | cons k0 rest ih =>
    intro m k
    unfold fillKeys
    simp only [List.foldl_cons]
    rw [show rest.foldl (fun m k => ensureKey keyOf mk k m) (ensureKey keyOf mk k0 m) =
        fillKeys keyOf mk (ensureKey keyOf mk k0 m) rest from rfl, ih]
    rw [ensureKey_key_mem keyOf mk hkmk]
    simp only [List.mem_cons]
    constructor
    · rintro ((h | rfl) | h)
      · exact Or.inl h
      · exact Or.inr (Or.inl rfl)
      · exact Or.inr (Or.inr h)
    · rintro (h | rfl | h)
      · exact Or.inl (Or.inl h)
      · exact Or.inl (Or.inr rfl)
      · exact Or.inr h

theorem fillKeys_key_nodup {B : Type} (keyOf : B → Nat) (mk : Nat → B)
    (hkmk : ∀ k, keyOf (mk k) = k) :
    ∀ (ks : List Nat) (m : List B), (m.map keyOf).Nodup →
      ((fillKeys keyOf mk m ks).map keyOf).Nodup := by
  intro ks
  induction ks with
  | nil => intro m hm; exact hm
  | cons k0 rest ih =>
    intro m hm
    unfold fillKeys
    simp only [List.foldl_cons]
    exact ih _ (ensureKey_key_nodup keyOf mk hkmk k0 m hm)

theorem objValues_map_key_perm {B : Type} (keyOf : B → Nat) (m : List B) :
    List.Perm ((objValues keyOf m).map keyOf) (m.map keyOf) :=
  (List.perm_insertionSort _ m).map keyOf

theorem objValues_map_key_sorted {B : Type} (keyOf : B → Nat) (m : List B) :
    ((objValues keyOf m).map keyOf).Sorted (· ≤ ·) := by
  haveI h1 : IsTotal B (fun a b => keyOf a ≤ keyOf b) := ⟨fun a b => Nat.le_total _ _⟩
  haveI h2 : IsTrans B (fun a b => keyOf a ≤ keyOf b) :=
    ⟨fun a b c hab hbc => le_trans hab hbc⟩
  have hs := List.sorted_insertionSort (fun a b => keyOf a ≤ keyOf b) m
  exact List.pairwise_map.2 hs

theorem sorted_nodup_interval_eq_range' (l : List Nat) (s K : Nat)
    (hs : l.Sorted (· ≤ ·)) (hn : l.Nodup)
    (hm : ∀ k, k ∈ l ↔ s ≤ k ∧ k < s + K) : l = List.range' s K := by
  have hr : (List.range' s K).Sorted (· ≤ ·) := List.pairwise_le_range' s K
  refine List.eq_of_perm_of_sorted ?_ hs hr
  rw [List.perm_ext_iff_of_nodup hn (List.nodup_range' s K)]
  intro a
  rw [hm, List.mem_range'_1]

/-! ## The week numbers of the full-year window form an interval -/

theorem mem_map_over_daysOfYears {lo hi k : Nat} (g : CalDate → Nat) :
    k ∈ (daysOfYears lo hi).map g ↔
      ∃ y, y ∈ yearsFromTo lo hi ∧ k ∈ (datesOfYear y).map g := by
  unfold daysOfYears
  rw [List.map_flatMap]
  simp only [List.mem_flatMap]

theorem mem_windowWeeks_iff {lo hi : Nat} (hlo : 1 ≤ lo) (hle : lo ≤ hi) (k : Nat) :
    k ∈ (daysOfYears lo hi).map getWeek ↔
      1 ≤ k ∧ k ≤ listMax ((daysOfYears lo hi).map getWeek) := by
  constructor
  · intro h
    obtain ⟨d, _, rfl⟩ := List.mem_map.1 h
    exact ⟨getWeek_pos d, listMax_le_of_mem h⟩
  · rintro ⟨hk1, hk2⟩
    have hne : (daysOfYears lo hi).map getWeek ≠ [] := by
      have hv1 : ValidDate ⟨lo, 1, 1⟩ := by
        unfold ValidDate
        dsimp only
        exact ⟨hlo, by omega, by omega, by omega, by cases isLeap lo <;> decide⟩
      have hj1 : (⟨lo, 1, 1⟩ : CalDate) ∈ daysOfYears lo hi :=
        mem_daysOfYears hv1 (le_refl lo) hle
      intro hcon
      exact absurd (List.mem_map_of_mem getWeek hj1)
        (by rw [hcon]; exact List.not_mem_nil _)
    rcases listMax_mem hne with hmem | hzero
    · obtain ⟨ys, hys, hmem'⟩ := (mem_map_over_daysOfYears getWeek).1 hmem
      have hys1 : 1 ≤ ys := le_trans hlo (mem_yearsFromTo_iff.1 hys).1
      have hMy := listMax_le_of_mem hmem'
      rw [yearWeeks_interval hys1] at hmem'
      have hkin : k ∈ (datesOfYear ys).map getWeek := by
        rw [yearWeeks_interval hys1]
        exact ⟨hk1, by omega⟩
      exact (mem_map_over_daysOfYears getWeek).2 ⟨ys, hys, hkin⟩
    · omega

theorem dec31_mem_window {lo hi : Nat} (hlo : 1 ≤ lo) (hle : lo ≤ hi) :
    (⟨hi, 12, 31⟩ : CalDate) ∈ daysOfYears lo hi := by
  have hv : ValidDate ⟨hi, 12, 31⟩ := by
    unfold ValidDate
    dsimp only
    exact ⟨by omega, by omega, by omega, by omega, by cases isLeap hi <;> decide⟩
  exact mem_daysOfYears hv hle (le_refl hi)

theorem pipeline_key_mem {B : Type} (keyOf : B → Nat) (mk : Nat → B)
    (bump : CalDate → Nat → B → B)
    (hkmk : ∀ k, keyOf (mk k) = k) (hkb : ∀ d l b, keyOf (bump d l b) = keyOf b)
    (data : List CalDate) (periodOf : CalDate → Nat) (w : List CalDate)
    (ks : List Nat) (k : Nat) :
    k ∈ ((objValues keyOf (fillKeys keyOf mk
        (bucketLoop keyOf mk bump data periodOf w) ks)).map keyOf) ↔
      k ∈ w.map periodOf ∨ k ∈ ks := by
  rw [(objValues_map_key_perm keyOf _).mem_iff, fillKeys_key_mem keyOf mk hkmk]
  unfold bucketLoop
  rw [bucketLoop_key_mem keyOf mk bump hkmk hkb data periodOf w []]
  simp

theorem pipeline_key_nodup {B : Type} (keyOf : B → Nat) (mk : Nat → B)
    (bump : CalDate → Nat → B → B)
    (hkmk : ∀ k, keyOf (mk k) = k) (hkb : ∀ d l b, keyOf (bump d l b) = keyOf b)
    (data : List CalDate) (periodOf : CalDate → Nat) (w : List CalDate)
    (ks : List Nat) :
    ((objValues keyOf (fillKeys keyOf mk
        (bucketLoop keyOf mk bump data periodOf w) ks)).map keyOf).Nodup := by
  rw [(objValues_map_key_perm keyOf _).nodup_iff]
  refine fillKeys_key_nodup keyOf mk hkmk ks _ ?_
  unfold bucketLoop
  exact bucketLoop_key_nodup keyOf mk bump hkmk hkb data periodOf w [] (by simp)

theorem mem_fillRange_iff (n k : Nat) :
    k ∈ (List.range n).map (· + 1) ↔ 1 ≤ k ∧ k ≤ n := by
  simp only [List.mem_map, List.mem_range]
  constructor
  · rintro ⟨i, hi, rfl⟩; omega
  · intro ⟨h1, h2⟩; exact ⟨k - 1, by omega, by omega⟩

theorem month_bounds_of_mem_daysOfYears {d : CalDate} {lo hi : Nat}
    (h : d ∈ daysOfYears lo hi) : 1 ≤ d.month ∧ d.month ≤ 12 := by
  unfold daysOfYears at h
  rw [List.mem_flatMap] at h
  obtain ⟨y, _, hd⟩ := h
  have hf := mem_datesOfYear_iff.1 hd
  exact ⟨hf.2.1, hf.2.2.1⟩

theorem mem_windowBiWeeks_iff {lo hi : Nat} (hlo : 1 ≤ lo) (hle : lo ≤ hi) (k : Nat) :
    k ∈ (daysOfYears lo hi).map (fun d => (getWeek d + 1) / 2) ↔
      1 ≤ k ∧ k ≤ (listMax ((daysOfYears lo hi).map getWeek) + 1) / 2 := by
  rw [List.mem_map]
  constructor
  · rintro ⟨d, hd, rfl⟩
    have hw : getWeek d ∈ (daysOfYears lo hi).map getWeek :=
      List.mem_map_of_mem getWeek hd
    rw [mem_windowWeeks_iff hlo hle] at hw
    omega
  · rintro ⟨hk1, hk2⟩
    have hw : (2 * k - 1) ∈ (daysOfYears lo hi).map getWeek := by
      rw [mem_windowWeeks_iff hlo hle]
      omega
    obtain ⟨d, hd, hdw⟩ := List.mem_map.1 hw
    exact ⟨d, hd, by omega⟩

theorem minDate_le_maxDate_year {data : List CalDate} (hne : data ≠ []) :
    (minDateOf data).year ≤ (maxDateOf data).year :=
  dateLeB_year (minDateOf_le (maxDateOf_mem hne))

theorem getWeeklyData_map_week (data : List CalDate) (hne : data ≠ [])
    (hval : ∀ x ∈ data, ValidDate x) :
    (getWeeklyData data).map WeeklyBucket.week =
      List.range' 1 (listMax ((daysOfYears (minDateOf data).year
        (maxDateOf data).year).map getWeek)) := by
  have hlo : 1 ≤ (minDateOf data).year := (hval _ (minDateOf_mem hne)).1
  have hle : (minDateOf data).year ≤ (maxDateOf data).year := minDate_le_maxDate_year hne
  have htw : getWeek (endOfYearDate (maxDateOf data)) ≤
      listMax ((daysOfYears (minDateOf data).year (maxDateOf data).year).map getWeek) :=
    listMax_le_of_mem (List.mem_map_of_mem getWeek (dec31_mem_window hlo hle))
  rw [getWeeklyData_eq data hne]
  refine sorted_nodup_interval_eq_range' _ 1 _ (objValues_map_key_sorted _ _) ?_ ?_
  · exact pipeline_key_nodup WeeklyBucket.week (fun k => ⟨k, 0⟩)
      (fun _ level b => ⟨b.week, b.level + level⟩) (fun _ => rfl) (fun _ _ _ => rfl)
      data getWeek _ _
  intro k
  rw [pipeline_key_mem WeeklyBucket.week (fun k => ⟨k, 0⟩)
      (fun _ level b => ⟨b.week, b.level + level⟩) (fun _ => rfl) (fun _ _ _ => rfl)
      data getWeek _ _ k,
    mem_windowWeeks_iff hlo hle, mem_fillRange_iff]
  omega

theorem getDailyData_map_week (data : List CalDate) (hne : data ≠ [])
    (hval : ∀ x ∈ data, ValidDate x) :
    (getDailyData data).map DailyBucket.week =
      List.range' 1 (listMax ((daysOfYears (minDateOf data).year
        (maxDateOf data).year).map getWeek)) := by
  have hlo : 1 ≤ (minDateOf data).year := (hval _ (minDateOf_mem hne)).1
  have hle : (minDateOf data).year ≤ (maxDateOf data).year := minDate_le_maxDate_year hne
  have htw : getWeek (endOfYearDate (maxDateOf data)) ≤
      listMax ((daysOfYears (minDateOf data).year (maxDateOf data).year).map getWeek) :=
    listMax_le_of_mem (List.mem_map_of_mem getWeek (dec31_mem_window hlo hle))
  rw [getDailyData_eq data hne]
  refine sorted_nodup_interval_eq_range' _ 1 _ (objValues_map_key_sorted _ _) ?_ ?_
  · exact pipeline_key_nodup DailyBucket.week (fun k => ⟨k, 0, []⟩)
      (fun day level b =>
        ⟨b.week, b.level + level, if level == 1 then b.days ++ [day] else b.days⟩) (fun _ => rfl) (fun _ _ _ => rfl)
      data getWeek _ _
  intro k
  rw [pipeline_key_mem DailyBucket.week (fun k => ⟨k, 0, []⟩)
      (fun day level b =>
        ⟨b.week, b.level + level, if level == 1 then b.days ++ [day] else b.days⟩) (fun _ => rfl) (fun _ _ _ => rfl)
      data getWeek _ _ k,
    mem_windowWeeks_iff hlo hle, mem_fillRange_iff]
  omega

theorem getBiWeeklyData_map_biWeek (data : List CalDate) (hne : data ≠ [])
    (hval : ∀ x ∈ data, ValidDate x) :
    (getBiWeeklyData data).map BiWeeklyBucket.biWeek =
      List.range' 1 ((listMax ((daysOfYears (minDateOf data).year
        (maxDateOf data).year).map getWeek) + 1) / 2) := by
  have hlo : 1 ≤ (minDateOf data).year := (hval _ (minDateOf_mem hne)).1
  have hle : (minDateOf data).year ≤ (maxDateOf data).year := minDate_le_maxDate_year hne
  have htw : getWeek (endOfYearDate (maxDateOf data)) ≤
      listMax ((daysOfYears (minDateOf data).year (maxDateOf data).year).map getWeek) :=
    listMax_le_of_mem (List.mem_map_of_mem getWeek (dec31_mem_window hlo hle))
  rw [getBiWeeklyData_eq data hne]
  refine sorted_nodup_interval_eq_range' _ 1 _ (objValues_map_key_sorted _ _) ?_ ?_
  · exact pipeline_key_nodup BiWeeklyBucket.biWeek (fun k => ⟨k, 0, []⟩)
      (fun day level b =>
        ⟨b.biWeek, b.level + level,
          if level == 1 && !(b.weeks.contains (getWeek day)) then
            b.weeks ++ [getWeek day]
          else b.weeks⟩) (fun _ => rfl) (fun _ _ _ => rfl)
      data (fun day => (getWeek day + 1) / 2) _ _
  intro k
  rw [pipeline_key_mem BiWeeklyBucket.biWeek (fun k => ⟨k, 0, []⟩)
      (fun day level b =>
        ⟨b.biWeek, b.level + level,
          if level == 1 && !(b.weeks.contains (getWeek day)) then
            b.weeks ++ [getWeek day]
          else b.weeks⟩) (fun _ => rfl) (fun _ _ _ => rfl)
      data (fun day => (getWeek day + 1) / 2) _ _ k,
    mem_windowBiWeeks_iff hlo hle, mem_fillRange_iff]
  omega

theorem getMonthlyData_map_month (data : List CalDate) (hne : data ≠ [])
    (hval : ∀ x ∈ data, ValidDate x) :
    (getMonthlyData data).map MonthlyBucket.month = List.range' 1 12 := by
  rw [getMonthlyData_eq data hne]
  refine sorted_nodup_interval_eq_range' _ 1 12 (objValues_map_key_sorted _ _) ?_ ?_
  · exact pipeline_key_nodup MonthlyBucket.month (fun k => ⟨k, 0⟩)
      (fun _ level b => ⟨b.month, b.level + level⟩) (fun _ => rfl) (fun _ _ _ => rfl)
      data (fun day => getMonth day + 1) _ _
  intro k
  rw [pipeline_key_mem MonthlyBucket.month (fun k => ⟨k, 0⟩)
      (fun _ level b => ⟨b.month, b.level + level⟩) (fun _ => rfl) (fun _ _ _ => rfl)
      data (fun day => getMonth day + 1) _ _ k,
    mem_fillRange_iff]
  constructor
  · rintro (h | h)
    · obtain ⟨d, hd, rfl⟩ := List.mem_map.1 h
      have hm := month_bounds_of_mem_daysOfYears hd
      unfold getMonth
      omega
    · omega
  · intro h
    exact Or.inr (by omega)

theorem getQuarterlyData_map_quarter (data : List CalDate) (hne : data ≠ [])
    (hval : ∀ x ∈ data, ValidDate x) :
    (getQuarterlyData data).map QuarterlyBucket.quarter = List.range' 1 4 := by
  rw [getQuarterlyData_eq data hne]
  refine sorted_nodup_interval_eq_range' _ 1 4 (objValues_map_key_sorted _ _) ?_ ?_
  · exact pipeline_key_nodup QuarterlyBucket.quarter (fun k => ⟨k, 0⟩)
      (fun _ level b => ⟨b.quarter, b.level + level⟩) (fun _ => rfl) (fun _ _ _ => rfl)
      data getQuarter _ _
  intro k
  rw [pipeline_key_mem QuarterlyBucket.quarter (fun k => ⟨k, 0⟩)
      (fun _ level b => ⟨b.quarter, b.level + level⟩) (fun _ => rfl) (fun _ _ _ => rfl)
      data getQuarter _ _ k,
    mem_fillRange_iff]
  constructor
  · rintro (h | h)
    · obtain ⟨d, hd, rfl⟩ := List.mem_map.1 h
      have hm := month_bounds_of_mem_daysOfYears hd
      unfold getQuarter getMonth
      omega
    · omega
  · intro h
    exact Or.inr (by omega)

theorem getSemesterlyData_map_semester (data : List CalDate) (hne : data ≠ [])
    (hval : ∀ x ∈ data, ValidDate x) :
    (getSemesterlyData data).map SemesterlyBucket.semester = List.range' 1 2 := by
  rw [getSemesterlyData_eq data hne]
  refine sorted_nodup_interval_eq_range' _ 1 2 (objValues_map_key_sorted _ _) ?_ ?_
  · exact pipeline_key_nodup SemesterlyBucket.semester (fun k => ⟨k, 0⟩)
      (fun _ level b => ⟨b.semester, b.level + level⟩) (fun _ => rfl) (fun _ _ _ => rfl)
      data (fun day => if getMonth day < 6 then 1 else 2) _ _
  intro k
  rw [pipeline_key_mem SemesterlyBucket.semester (fun k => ⟨k, 0⟩)
      (fun _ level b => ⟨b.semester, b.level + level⟩) (fun _ => rfl) (fun _ _ _ => rfl)
      data (fun day => if getMonth day < 6 then 1 else 2) _ _ k,
    mem_fillRange_iff]
  constructor
  · rintro (h | h)
    · obtain ⟨d, hd, rfl⟩ := List.mem_map.1 h
      split <;> omega
    · omega
  · intro h
    exact Or.inr (by omega)

/-! ## The year axis of getYearlyData -/

theorem dateLeB_of_le_fields {a b : CalDate}
    (h : a.year < b.year ∨ (a.year = b.year ∧
      (a.month < b.month ∨ (a.month = b.month ∧ a.day ≤ b.day)))) :
    dateLeB a b = true := by
  simp only [dateLeB, dateLtB, Bool.not_eq_true', decide_eq_false_iff_not]
  omega

theorem mem_windowYears_iff (data : List CalDate) (hne : data ≠ [])
    (hval : ∀ x ∈ data, ValidDate x) (k : Nat) :
    k ∈ (daysFromTo (minDateOf data) (maxDateOf data)).map getYear ↔
      (minDateOf data).year ≤ k ∧ k ≤ (maxDateOf data).year := by
  have hminv := hval _ (minDateOf_mem hne)
  have hmaxv := hval _ (maxDateOf_mem hne)
  have hminmax : dateLeB (minDateOf data) (maxDateOf data) = true :=
    minDateOf_le (maxDateOf_mem hne)
  rw [List.mem_map]
  constructor
  · rintro ⟨d, hd, rfl⟩
    unfold daysFromTo at hd
    rw [List.mem_filter] at hd
    obtain ⟨hd1, -⟩ := hd
    unfold daysOfYears at hd1
    rw [List.mem_flatMap] at hd1
    obtain ⟨y, hy, hdy⟩ := hd1
    have hb := mem_yearsFromTo_iff.1 hy
    have he := year_of_mem_datesOfYear hdy
    unfold getYear
    omega
  · rintro ⟨hk1, hk2⟩
    by_cases hkmin : k = (minDateOf data).year
    · refine ⟨minDateOf data, ?_, hkmin.symm⟩
      unfold daysFromTo
      rw [List.mem_filter]
      refine ⟨mem_daysOfYears hminv (le_refl _) (minDate_le_maxDate_year hne), ?_⟩
      rw [Bool.and_eq_true]
      exact ⟨dateLeB_refl _, hminmax⟩
    · have hy1 : 1 ≤ (minDateOf data).year := hminv.1
      refine ⟨⟨k, 1, 1⟩, ?_, rfl⟩
      unfold daysFromTo
      rw [List.mem_filter]
      have hv : ValidDate ⟨k, 1, 1⟩ := by
        unfold ValidDate
        dsimp only
        exact ⟨by omega, by omega, by omega, by omega, by cases isLeap k <;> decide⟩
      refine ⟨mem_daysOfYears hv hk1 hk2, ?_⟩
      rw [Bool.and_eq_true]
      constructor
      · exact dateLeB_of_le_fields (Or.inl (by dsimp only; omega))
      · rcases Nat.lt_or_ge k (maxDateOf data).year with hlt | hge
        · exact dateLeB_of_le_fields (Or.inl hlt)
        · have hkeq : k = (maxDateOf data).year := by omega
          refine dateLeB_of_le_fields (Or.inr ⟨hkeq, ?_⟩)
          rcases Nat.lt_or_ge (1 : Nat) (maxDateOf data).month with hm | hm
          · exact Or.inl hm
          · have hmeq : (maxDateOf data).month = 1 := by
              have := hmaxv.2.1
              omega
            exact Or.inr ⟨hmeq.symm, hmaxv.2.2.2.1⟩

theorem getYearlyData_map_year (data : List CalDate) (hne : data ≠ [])
    (hval : ∀ x ∈ data, ValidDate x) :
    (getYearlyData data).map YearlyBucket.year =
      List.range' (minDateOf data).year
        ((maxDateOf data).year + 1 - (minDateOf data).year) := by
  have hle := minDate_le_maxDate_year hne
  rw [getYearlyData_eq data hne]
  refine sorted_nodup_interval_eq_range' _ _ _ (objValues_map_key_sorted _ _) ?_ ?_
  · rw [(objValues_map_key_perm _ _).nodup_iff]
    unfold bucketLoop
    exact bucketLoop_key_nodup YearlyBucket.year (fun k => ⟨k, 0⟩)
      (fun _ level b => ⟨b.year, b.level + level⟩) (fun _ => rfl) (fun _ _ _ => rfl)
      data getYear _ [] (by simp)
  · intro k
    rw [(objValues_map_key_perm _ _).mem_iff]
    unfold bucketLoop
    rw [bucketLoop_key_mem YearlyBucket.year (fun k => ⟨k, 0⟩)
      (fun _ level b => ⟨b.year, b.level + level⟩) (fun _ => rfl) (fun _ _ _ => rfl)
      data getYear _ []]
    simp only [List.map_nil, List.not_mem_nil, false_or]
    rw [mem_windowYears_iff data hne hval]
    omega

/-- **C6** (amended).  `getYearlyData` emits exactly one bucket for every
calendar year in the inclusive range from the year of the earliest input
date to the year of the latest one, in ascending order — including
zero-level buckets for intervening years with no completions, contrary to
the claim that only years actually present in the input get a bucket. -/
theorem c6_yearly_year_axis (data : List CalDate) (hne : data ≠ [])
    (hval : ∀ x ∈ data, ValidDate x) :
    (getYearlyData data).map YearlyBucket.year =
      List.range' (minDateOf data).year
        ((maxDateOf data).year + 1 - (minDateOf data).year) :=
  getYearlyData_map_year data hne hval

/-- **C6**: counterexample.  On input `["2020-05-01", "2022-05-01"]`,
`getYearlyData` emits a bucket for the intervening year 2021, although
2021 is the year of no input date. -/
theorem c6_zero_level_counterexample :
    2021 ∈ (getYearlyData [⟨2020, 5, 1⟩, ⟨2022, 5, 1⟩]).map YearlyBucket.year ∧
    ∀ d ∈ [CalDate.mk 2020 5 1, CalDate.mk 2022 5 1], getYear d ≠ 2021 := by
  constructor
  · rw [getYearlyData_map_year [⟨2020, 5, 1⟩, ⟨2022, 5, 1⟩] (by decide) (by decide)]
    decide
  · decide

/-- Witness for C6 (amended) at a concrete input. -/
theorem c6_yearly_year_axis_witness :
    (([⟨2020, 5, 1⟩, ⟨2022, 5, 1⟩] : List CalDate) ≠ [] ∧
      ∀ x ∈ ([⟨2020, 5, 1⟩, ⟨2022, 5, 1⟩] : List CalDate), ValidDate x) ∧
    (getYearlyData [⟨2020, 5, 1⟩, ⟨2022, 5, 1⟩]).map YearlyBucket.year =
      List.range' (minDateOf [⟨2020, 5, 1⟩, ⟨2022, 5, 1⟩]).year
        ((maxDateOf [⟨2020, 5, 1⟩, ⟨2022, 5, 1⟩]).year + 1 -
          (minDateOf [⟨2020, 5, 1⟩, ⟨2022, 5, 1⟩]).year) :=
  ⟨⟨by decide, by decide⟩,
    c6_yearly_year_axis [⟨2020, 5, 1⟩, ⟨2022, 5, 1⟩] (by decide) (by decide)⟩

/-- **C5** (amended).  For every non-empty valid input, each non-yearly
aggregation returns buckets whose period indices are exactly `1..K` in
ascending order with exactly one bucket per index, where `K` is the number
of buckets returned: `K = 12` for months, `4` for quarters, `2` for
semesters; for the week-indexed outputs (`getDailyData`, `getWeeklyData`)
and for bi-weeks, `K` is the largest week (bi-week) number occurring in
the expanded year window, which can exceed the computed
`totalWeeks = getWeek(endOfYear(max))`, because `getWeek` of December 31
can fold into week 1 of the next week-numbering year. -/
theorem c5_bucket_axis (data : List CalDate) (hne : data ≠ [])
    (hval : ∀ x ∈ data, ValidDate x) :
    (getDailyData data).map DailyBucket.week =
      List.range' 1 ((getDailyData data).length) ∧
    (getWeeklyData data).map WeeklyBucket.week =
      List.range' 1 ((getWeeklyData data).length) ∧
    (getBiWeeklyData data).map BiWeeklyBucket.biWeek =
      List.range' 1 ((getBiWeeklyData data).length) ∧
    (getMonthlyData data).map MonthlyBucket.month = List.range' 1 12 ∧
    (getQuarterlyData data).map QuarterlyBucket.quarter = List.range' 1 4 ∧
    (getSemesterlyData data).map SemesterlyBucket.semester = List.range' 1 2 := by
  refine ⟨?_, ?_, ?_, getMonthlyData_map_month data hne hval,
    getQuarterlyData_map_quarter data hne hval,
    getSemesterlyData_map_semester data hne hval⟩
  · have h := getDailyData_map_week data hne hval
    have hlen : (getDailyData data).length =
        listMax ((daysOfYears (minDateOf data).year
          (maxDateOf data).year).map getWeek) := by
      have hc := congrArg List.length h
      simpa using hc
    rw [h, hlen]
  · have h := getWeeklyData_map_week data hne hval
    have hlen : (getWeeklyData data).length =
        listMax ((daysOfYears (minDateOf data).year
          (maxDateOf data).year).map getWeek) := by
      have hc := congrArg List.length h
      simpa using hc
    rw [h, hlen]
  · have h := getBiWeeklyData_map_biWeek data hne hval
    have hlen : (getBiWeeklyData data).length =
        (listMax ((daysOfYears (minDateOf data).year
          (maxDateOf data).year).map getWeek) + 1) / 2 := by
      have hc := congrArg List.length h
      simpa using hc
    rw [h, hlen]

/-- Witness for C5 (amended) at a concrete input. -/
theorem c5_bucket_axis_witness :
    (([⟨2024, 1, 5⟩] : List CalDate) ≠ [] ∧
      ∀ x ∈ ([⟨2024, 1, 5⟩] : List CalDate), ValidDate x) ∧
    (getMonthlyData [⟨2024, 1, 5⟩]).map MonthlyBucket.month = List.range' 1 12 :=
  ⟨⟨by decide, by decide⟩,
    (c5_bucket_axis [⟨2024, 1, 5⟩] (by decide) (by decide)).2.2.2.1⟩

/-- **C5**: counterexample.  For the input `["2024-05-15"]` the computed
`totalWeeks = getWeek(endOfYear(max))` is 1 (December 31, 2024 falls into
week 1 of week-year 2025), yet `getWeeklyData` returns a bucket with week
index 2 — so the bucket axis is not `1..totalWeeks`. -/
theorem c5_totalweeks_counterexample :
    getWeek (endOfYearDate (maxDateOf [⟨2024, 5, 15⟩])) = 1 ∧
    2 ∈ (getWeeklyData [(⟨2024, 5, 15⟩ : CalDate)]).map WeeklyBucket.week := by
  constructor
  · decide
  · rw [getWeeklyData_map_week [⟨2024, 5, 15⟩] (by decide) (by decide),
      List.mem_range'_1]
    have hm : (⟨2024, 1, 7⟩ : CalDate) ∈
        daysOfYears (minDateOf [(⟨2024, 5, 15⟩ : CalDate)]).year
          (maxDateOf [(⟨2024, 5, 15⟩ : CalDate)]).year :=
      mem_daysOfYears (by decide) (by decide) (by decide)
    have hK := listMax_le_of_mem (List.mem_map_of_mem getWeek hm)
    have hgw : getWeek ⟨2024, 1, 7⟩ = 2 := by decide
    omega
